import Mathlib

/-!
Verification of the `.rterrain` container format reader/writer
(`src/qgis-plugin/src/exporters/rterrain_format.py`, class `RTerrainFormat`).

Shallow embedding conventions:
* A file is a `List Nat` of byte values.
* Python `json` documents are modelled by the inductive `Json` below; numbers
  are modelled as integers, strings as escape-free byte lists (the payloads the
  writer produces never require JSON escaping), and the serializer is partial
  (`Option`), returning `none` exactly where the model does not cover the
  Python behaviour (strings needing escapes, exhausted recursion fuel).
* Library functions that are not part of the repository (zlib, hashlib md5 and
  sha256) are modelled by executable stand-ins that keep the properties the
  code relies on: compression is invertible and tags its stream, digests are
  deterministic functions of the input of the documented length.
* Recursion over `Json` uses an explicit fuel argument so that every
  definition is a plain computable structural recursion; public entry points
  supply a fuel that is sufficient for every value whose serialized form fits
  in the fuel bound, mirroring the recursion limits of the Python json module.
-/

set_option maxRecDepth 100000

/-- Byte list of an ASCII string literal. -/
def str2b (s : String) : List Nat := s.data.map Char.toNat

/-- Little-endian decoding of a 4-byte list, models struct.unpack of a u32. -/
def leU32 : List Nat → Nat
  | [a, b, c, d] => a + 256 * b + 65536 * c + 16777216 * d
  | _ => 0

/-- Little-endian encoding of a value below 2 to the 32 into 4 bytes. -/
def pack32 (n : Nat) : List Nat :=
  [n % 256, n / 256 % 256, n / 65536 % 256, n / 16777216 % 256]

/-- Models struct.pack of a u32: fails on values that do not fit. -/
def packU32 (n : Nat) : Option (List Nat) :=
  if n < 4294967296 then some (pack32 n) else none

/-- Models a bounded read at a position: f.seek(pos); f.read(n). A short read
returns the bytes that remain. -/
def readAt (bytes : List Nat) (pos n : Nat) : List Nat :=
  (bytes.drop pos).take n

/-- JSON documents as produced and consumed by the Python json module, with
numbers restricted to integers and strings to escape-free byte lists. -/
inductive Json where
  | jnull : Json
  | jbool (b : Bool) : Json
  | jnum (n : Int) : Json
  | jstr (s : List Nat) : Json
  | jarr (l : List Json) : Json
  | jobj (l : List (List Nat × Json)) : Json

/-- Python dict keys must be hashable; the hashable JSON scalars. -/
inductive BKey where
  | knull : BKey
  | kbool (b : Bool) : BKey
  | knum (n : Int) : BKey
  | kstr (s : List Nat) : BKey
deriving DecidableEq

/-- Python hash(x) succeeds only on scalar JSON values. -/
def toKey : Json → Option BKey
  | .jnull => some .knull
  | .jbool b => some (.kbool b)
  | .jnum n => some (.knum n)
  | .jstr s => some (.kstr s)
  | .jarr _ => none
  | .jobj _ => none

/-- Characters the string model covers: printable ASCII without the quote and
the backslash, so that json.dumps emits them verbatim with no escape. -/
def cleanByte (c : Nat) : Bool :=
  32 ≤ c && c ≤ 126 && c ≠ 34 && c ≠ 92

def cleanStr (s : List Nat) : Bool := s.all cleanByte

/-- ASCII digit list of a natural number, most significant first; the first
argument is recursion fuel, sufficient whenever the number is at most it. -/
def natDigsAux : Nat → Nat → List Nat
  | 0, n => [48 + n % 10]
  | fu + 1, n => if n < 10 then [48 + n] else natDigsAux fu (n / 10) ++ [48 + n % 10]

def natDigs (n : Nat) : List Nat := natDigsAux n n

/-- Decimal rendering of an integer, as json.dumps renders int values. -/
def intDigs : Int → List Nat
  | .ofNat n => natDigs n
  | .negSucc n => 45 :: natDigs (n + 1)

/-- Joins rendered chunks with a separator. -/
def joinSep (sep : List Nat) : List (List Nat) → List Nat
  | [] => []
  | [x] => x
  | x :: xs => x ++ sep ++ joinSep sep xs

/-- Renders an array from rendered items, compact style of json.dumps with the
default ", " item separator. -/
def renderArrC (items : List (List Nat)) : List Nat :=
  match items with
  | [] => [91, 93]
  | _ => 91 :: (joinSep [44, 32] items ++ [93])

/-- Renders an object from rendered fields, compact style. -/
def renderObjC (fields : List (List Nat)) : List Nat :=
  match fields with
  | [] => [123, 125]
  | _ => 123 :: (joinSep [44, 32] fields ++ [125])

/-- Renders one object field from a key and a rendered value, with the ": "
key separator of json.dumps. -/
def renderKeyC (k : List Nat) (v : List Nat) : List Nat :=
  34 :: (k ++ [34, 58, 32]) ++ v

mutual
/-- Models json.dumps(x) with its default separators; `none` where the model
does not cover the input (string needing escapes, fuel exhausted). -/
def dumpsV : Nat → Json → Option (List Nat)
  | 0, _ => none
  | _ + 1, .jnull => some (str2b "null")
  | _ + 1, .jbool b => some (if b then str2b "true" else str2b "false")
  | _ + 1, .jnum n => some (intDigs n)
  | _ + 1, .jstr s => if cleanStr s then some (34 :: (s ++ [34])) else none
  | fu + 1, .jarr l => (dumpsL fu l).map renderArrC
  | fu + 1, .jobj l => (dumpsO fu l).map renderObjC
def dumpsL : Nat → List Json → Option (List (List Nat))
  | 0, _ => none
  | _ + 1, [] => some []
  | fu + 1, j :: t => do
    let x ← dumpsV fu j
    let xs ← dumpsL fu t
    pure (x :: xs)
def dumpsO : Nat → List (List Nat × Json) → Option (List (List Nat))
  | 0, _ => none
  | _ + 1, [] => some []
  | fu + 1, (k, v) :: t =>
    if cleanStr k then do
      let x ← dumpsV fu v
      let xs ← dumpsO fu t
      pure (renderKeyC k x :: xs)
    else none
end

/-- Indentation produced by json.dumps with indent=2 at a nesting depth. -/
def indentB (d : Nat) : List Nat := List.replicate (2 * d) 32

/-- Renders an array from rendered items in the indent=2 style: every item on
its own line at depth d+1, closing bracket back at depth d. -/
def renderArrI (d : Nat) (items : List (List Nat)) : List Nat :=
  match items with
  | [] => [91, 93]
  | _ => 91 :: 10 :: (indentB (d + 1) ++ joinSep (44 :: 10 :: indentB (d + 1)) items
      ++ 10 :: (indentB d ++ [93]))

/-- Renders an object from rendered fields in the indent=2 style. -/
def renderObjI (d : Nat) (fields : List (List Nat)) : List Nat :=
  match fields with
  | [] => [123, 125]
  | _ => 123 :: 10 :: (indentB (d + 1) ++ joinSep (44 :: 10 :: indentB (d + 1)) fields
      ++ 10 :: (indentB d ++ [125]))

mutual
/-- Models json.dumps(x, indent=2) at nesting depth d. -/
def dumpsIV : Nat → Nat → Json → Option (List Nat)
  | 0, _, _ => none
  | _ + 1, _, .jnull => some (str2b "null")
  | _ + 1, _, .jbool b => some (if b then str2b "true" else str2b "false")
  | _ + 1, _, .jnum n => some (intDigs n)
  | _ + 1, _, .jstr s => if cleanStr s then some (34 :: (s ++ [34])) else none
  | fu + 1, d, .jarr l => (dumpsIL fu (d + 1) l).map (renderArrI d)
  | fu + 1, d, .jobj l => ( dumpsIO fu (d + 1) l).map (renderObjI d)
def dumpsIL : Nat → Nat → List Json → Option (List (List Nat))
  | 0, _, _ => none
  | _ + 1, _, [] => some []
  | fu + 1, d, j :: t => do
    let x ← dumpsIV fu d j
    let xs ← dumpsIL fu d t
    pure (x :: xs)
def dumpsIO : Nat → Nat → List (List Nat × Json) → Option (List (List Nat))
  | 0, _, _ => none
  | _ + 1, _, [] => some []
  | fu + 1, d, (k, v) :: t =>
    if cleanStr k then do
      let x ← dumpsIV fu d v
      let xs ← dumpsIO fu d t
      pure (renderKeyC k x :: xs)
    else none
end

/-- Serializer fuel used by the model at its json.dumps call sites; any value
whose size stays under this bound serializes, mirroring that Python handles
any value it can physically build. -/
def JFUEL : Nat := 18446744073709551616

/-- Models json.dumps(x). -/
def dumps (j : Json) : Option (List Nat) := dumpsV JFUEL j

/-- Models json.dumps(x, indent=2), the form used for the package header. -/
def dumpsInd (j : Json) : Option (List Nat) := dumpsIV JFUEL 0 j

/-- JSON whitespace as accepted between tokens by json.loads. -/
def isWsB (c : Nat) : Bool := c == 32 || c == 9 || c == 10 || c == 13

def skipWs : List Nat → List Nat
  | [] => []
  | c :: r => if isWsB c then skipWs r else c :: r

def isDigit (c : Nat) : Bool := decide (48 ≤ c) && decide (c ≤ 57)

/-- Splits a leading run of ASCII digits from the input. -/
def digSpan : List Nat → List Nat × List Nat
  | [] => ([], [])
  | c :: r =>
    if isDigit c then
      let p := digSpan r
      (c :: p.1, p.2)
    else ([], c :: r)

/-- Value of a most-significant-first digit list. -/
def digsVal (l : List Nat) : Nat := l.foldl (fun a c => a * 10 + (c - 48)) 0

/-- Reads string contents up to the closing quote; the model covers only
escape-free strings and fails on a backslash. -/
def strSpan : List Nat → Option (List Nat × List Nat)
  | [] => none
  | c :: r =>
    if c == 34 then some ([], r)
    else if c == 92 then none
    else (strSpan r).map (fun p => (c :: p.1, p.2))

mutual
/-- Recursive-descent JSON value reader, models the json.loads grammar over
the covered fragment; the first argument is fuel. -/
def parseVal : Nat → List Nat → Option (Json × List Nat)
  | 0, _ => none
  | fu + 1, s =>
    match skipWs s with
    | [] => none
    | c :: r =>
      if c == 110 then
        match r with
        | 117 :: 108 :: 108 :: rest => some (.jnull, rest)
        | _ => none
      else if c == 116 then
        match r with
        | 114 :: 117 :: 101 :: rest => some (.jbool true, rest)
        | _ => none
      else if c == 102 then
        match r with
        | 97 :: 108 :: 115 :: 101 :: rest => some (.jbool false, rest)
        | _ => none
      else if c == 34 then
        (strSpan r).map (fun p => (.jstr p.1, p.2))
      else if c == 91 then
        match skipWs r with
        | [] => none
        | d :: r2 =>
          if d == 93 then some (.jarr [], r2)
          else (parseItems fu (d :: r2)).map (fun p => (.jarr p.1, p.2))
      else if c == 123 then
        match skipWs r with
        | [] => none
        | d :: r2 =>
          if d == 125 then some (.jobj [], r2)
          else (parseFields fu (d :: r2)).map (fun p => (.jobj p.1, p.2))
      else if c == 45 then
        match digSpan r with
        | ([], _) => none
        | (ds, rest) => some (.jnum (-(digsVal ds : Int)), rest)
      else if isDigit c then
        let p := digSpan r
        some (.jnum (digsVal (c :: p.1) : Int), p.2)
      else none
/-- Reads the items of a nonempty array, after the opening bracket. -/
def parseItems : Nat → List Nat → Option (List Json × List Nat)
  | 0, _ => none
  | fu + 1, s =>
    match parseVal fu s with
    | none => none
    | some (j, rest) =>
      match skipWs rest with
      | 44 :: r2 => (parseItems fu r2).map (fun p => (j :: p.1, p.2))
      | 93 :: r2 => some ([j], r2)
      | _ => none
/-- Reads the fields of a nonempty object, after the opening brace. -/
def parseFields : Nat → List Nat → Option (List (List Nat × Json) × List Nat)
  | 0, _ => none
  | fu + 1, s =>
    match skipWs s with
    | 34 :: r =>
      match strSpan r with
      | none => none
      | some (k, r2) =>
        match skipWs r2 with
        | 58 :: r3 =>
          match parseVal fu r3 with
          | none => none
          | some (v, r4) =>
            match skipWs r4 with
            | 44 :: r5 => (parseFields fu r5).map (fun p => ((k, v) :: p.1, p.2))
            | 125 :: r5 => some ([(k, v)], r5)
            | _ => none
        | _ => none
    | _ => none
end

/-- Models json.loads(s): a full parse of the input with trailing whitespace
allowed and nothing else left over. -/
def loads (s : List Nat) : Option Json :=
  match parseVal (s.length + 1) s with
  | some (j, rest) => if skipWs rest = [] then some j else none
  | none => none

/-- Lookup in an association list with later bindings winning, the value a
Python dict built from these pairs holds at the key. -/
def jlook : List (List Nat × Json) → List Nat → Option Json
  | [], _ => none
  | (k1, v) :: t, k =>
    match jlook t k with
    | some r => some r
    | none => if k1 = k then some v else none

/-- Models subscripting a parsed JSON value with a string key: a KeyError on a
missing key and a TypeError on a non-dict value both come back as `none`. -/
def jget (j : Json) (k : List Nat) : Option Json :=
  match j with
  | .jobj l => jlook l k
  | _ => none

/-- Models dict assignment d[k] = v: replaces the binding in place if the key
exists, appends it otherwise. -/
def objSet : List (List Nat × Json) → List Nat → Json → List (List Nat × Json)
  | [], k, v => [(k, v)]
  | (k1, v1) :: t, k, v => if k1 = k then (k, v) :: t else (k1, v1) :: objSet t k v

/-- Dict assignment on a header object; callers only apply it to objects. -/
def hSet (h : Json) (k : List Nat) (v : Json) : Json :=
  match h with
  | .jobj l => .jobj (objSet l k v)
  | _ => h

/-- Models header[k1][k2] = v: fails like Python when k1 is missing
(KeyError) or its value is not a dict. -/
def hSetIn (h : Json) (k1 k2 : List Nat) (v : Json) : Option Json :=
  match jget h k1 with
  | some (.jobj l) => some (hSet h k1 (.jobj (objSet l k2 v)))
  | some _ => none
  | none => none

/-- Models header[k].append(x) on a list-valued entry. -/
def hAppendAt (h : Json) (k : List Nat) (x : Json) : Option Json :=
  match jget h k with
  | some (.jarr l) => some (hSet h k (.jarr (l ++ [x])))
  | _ => none

/-- Models d.get(k, default): total on dicts, an AttributeError otherwise. -/
def pyGet (j : Json) (k : List Nat) (dflt : Json) : Option Json :=
  match j with
  | .jobj l => some ((jlook l k).getD dflt)
  | _ => none

/-- Models len(x) on JSON values; a TypeError on scalars. -/
def pyLen : Json → Option Nat
  | .jarr l => some l.length
  | .jobj l => some l.length
  | .jstr s => some s.length
  | _ => none

/-- Mixing step of the 128-bit content-digest model. -/
def md5mix (a c : Nat) : Nat :=
  (a * 131 + c + 17) % 340282366920938463463374607431768211456

/-- Lowercase hex digit byte. -/
def hexDig (n : Nat) : Nat := if n < 10 then 48 + n else 87 + n

/-- Big-endian fixed-width hex rendering of a value. -/
def hexChars : Nat → Nat → List Nat
  | 0, _ => []
  | w + 1, n => hexChars w (n / 16) ++ [hexDig (n % 16)]

/-- Executable model of hashlib.md5(data).hexdigest(): a deterministic
128-bit digest of the input rendered as 32 hex characters. -/
def md5hex (data : List Nat) : List Nat :=
  hexChars 32 (data.foldl md5mix 88)

/-- Mixing step of the 256-bit whole-file digest model. -/
def shaMix (a c : Nat) : Nat :=
  (a * 257 + c + 41) %
    115792089237316195423570985008687907853269984665640564039457584007913129639936

/-- Big-endian fixed-width byte rendering of a value. -/
def bytesBE : Nat → Nat → List Nat
  | 0, _ => []
  | w + 1, n => bytesBE w (n / 256) ++ [n % 256]

/-- Executable model of hashlib.sha256(data).digest(): a deterministic
256-bit digest of the input as 32 raw bytes. -/
def sha256B (data : List Nat) : List Nat :=
  bytesBE 32 (data.foldl shaMix 7)

/-- Stream tag of the compression model, standing in for the zlib header a
level-9 deflate stream starts with. -/
def zlibTag : List Nat := [120, 218]

/-- Executable model of zlib.compress(d, level=9): an invertible tagged
encoding of the payload. -/
def zcompress (d : List Nat) : List Nat := zlibTag ++ d

/-- Executable model of zlib.decompress: inverts `zcompress` and fails on
data that does not carry the stream tag. -/
def zdecompress : List Nat → Option (List Nat)
  | 120 :: 218 :: rest => some rest
  | _ => none

/-- A numpy ndarray as the writer sees it: dtype name, shape, and the raw
row-major bytes of a.tobytes(). -/
structure NpArr where
  dtype : List Nat
  shape : List Nat
  data : List Nat

/-- The three payload kinds `_write_data_block` distinguishes. -/
inductive PyValue where
  | npArray (a : NpArr)
  | pybytes (b : List Nat)
  | pyjson (j : Json)

/-- Element sizes of the numpy dtype names the model covers. -/
def dtypeSize (s : List Nat) : Option Nat :=
  if s = str2b "float32" then some 4
  else if s = str2b "float64" then some 8
  else if s = str2b "int16" then some 2
  else if s = str2b "int32" then some 4
  else if s = str2b "int64" then some 8
  else if s = str2b "uint8" then some 1
  else if s = str2b "uint16" then some 2
  else if s = str2b "uint32" then some 4
  else none

def prodL (l : List Nat) : Nat := l.foldr (· * ·) 1

/-- Invariant every real ndarray satisfies: the raw buffer length is the
element size times the element count. -/
def npWF (a : NpArr) : Bool :=
  match dtypeSize a.dtype with
  | some k => a.data.length == k * prodL a.shape
  | none => false

/-- Wellformedness of a payload in the model: ndarrays carry a covered dtype
and a consistent buffer. -/
def pvWF : PyValue → Bool
  | .npArray a => npWF a
  | _ => true

/-- Type tag `_write_data_block` records for a payload. -/
def typeTag : PyValue → List Nat
  | .npArray _ => str2b "numpy"
  | .pybytes _ => str2b "bytes"
  | .pyjson _ => str2b "json"

/-- Dtype field of the block metadata record: the dtype string for arrays,
null otherwise. -/
def dtypeField : PyValue → Json
  | .npArray a => .jstr a.dtype
  | _ => .jnull

/-- Shape field of the block metadata record. -/
def shapeField : PyValue → Json
  | .npArray a => .jarr (a.shape.map fun n => .jnum (Int.ofNat n))
  | _ => .jnull

/-- Raw bytes `_write_data_block` feeds to the compressor: a.tobytes() for
arrays, the bytes themselves for blobs, json.dumps(...).encode() for records. -/
def dataBytesOf : PyValue → Option (List Nat)
  | .npArray a => some a.data
  | .pybytes b => some b
  | .pyjson j => dumps j

/-- The per-block metadata record of `_write_data_block`, field for field. -/
def blockHeaderJson (name : List Nat) (v : PyValue) (comp : List Nat) (ulen : Nat) : Json :=
  .jobj [
    (str2b "name", .jstr name),
    (str2b "type", .jstr (typeTag v)),
    (str2b "dtype", dtypeField v),
    (str2b "shape", shapeField v),
    (str2b "uncompressed_size", .jnum ulen),
    (str2b "compressed_size", .jnum comp.length),
    (str2b "compression", .jstr (str2b "zlib")),
    (str2b "checksum", .jstr (md5hex comp))]

/-- Encoded pieces of one block: serialized metadata record and compressed
payload. -/
structure BlockEnc where
  bh : List Nat
  comp : List Nat
  ulen : Nat

/-- Models the encoding half of `_write_data_block`. -/
def encodeBlock (name : List Nat) (v : PyValue) : Option BlockEnc := do
  let db ← dataBytesOf v
  let comp := zcompress db
  let bh ← dumps (blockHeaderJson name v comp db.length)
  let _ ← packU32 bh.length
  pure ⟨bh, comp, db.length⟩

/-- Bytes `_write_data_block` emits for one block: length-prefixed metadata
record followed by the compressed payload. -/
def encBytes (e : BlockEnc) : List Nat := pack32 e.bh.length ++ e.bh ++ e.comp

/-- Index entry `_write_data_block` records for one block. -/
def idxEntry (off size : Nat) (v : PyValue) (cl ul : Nat) : Json :=
  .jobj [
    (str2b "offset", .jnum off),
    (str2b "size", .jnum size),
    (str2b "type", .jstr (typeTag v)),
    (str2b "compressed_size", .jnum cl),
    (str2b "uncompressed_size", .jnum ul)]

/-- Writes the block sequence, threading the file offset and accumulating
the emitted bytes and the in-memory index. -/
def writeBlocksAux : List (List Nat × PyValue) → Nat → List Nat →
    List (List Nat × Json) → Option (List Nat × List (List Nat × Json))
  | [], _, accB, accI => some (accB, accI)
  | (n, v) :: t, off, accB, accI => do
    let e ← encodeBlock n v
    let bb := encBytes e
    writeBlocksAux t (off + bb.length) (accB ++ bb)
      (objSet accI n (idxEntry off bb.length v e.comp.length e.ulen))

/-- Arguments of create_package; `created` stands for the
datetime.now().isoformat() string stamped into the header. -/
structure PkgArgs where
  projectInfo : List (List Nat × Json)
  created : List Nat
  heightmap : Option NpArr
  satellite : Option (List Nat)
  materials : Option (List (List Nat × NpArr))
  osm_data : Option Json
  vegetation : Option Json
  tactical : Option Json
  profile_config : Option Json

/-- The block list create_package writes, in its fixed order. -/
def pkgBlocks (args : PkgArgs) : List (List Nat × PyValue) :=
  (match args.heightmap with
   | some a => [(str2b "heightmap", .npArray a)]
   | none => []) ++
  (match args.satellite with
   | some b => [(str2b "satellite", .pybytes b)]
   | none => []) ++
  (match args.materials with
   | some ms => ms.map (fun p => (str2b "material_" ++ p.1, .npArray p.2))
   | none => []) ++
  (match args.osm_data with
   | some j => [(str2b "osm_data", .pyjson j)]
   | none => []) ++
  (match args.vegetation with
   | some j => [(str2b "vegetation", .pyjson j)]
   | none => []) ++
  (match args.tactical with
   | some j => [(str2b "tactical", .pyjson j)]
   | none => []) ++
  (match args.profile_config with
   | some j => [(str2b "profile", .pyjson j)]
   | none => [])

/-- Minimum of the elevation bytes; stands in for float(np.nanmin(a)), whose
floating-point value is outside the integer JSON model. Only its determinacy
matters to the claims. -/
def npNanmin (a : NpArr) : Int := (a.data.foldr min 255 : Nat)

/-- Maximum of the elevation bytes; stands in for float(np.nanmax(a)). -/
def npNanmax (a : NpArr) : Int := (a.data.foldr max 0 : Nat)

/-- The header skeleton `_create_header` builds before the per-artifact
conditionals, field for field in source order. -/
def baseHeader (args : PkgArgs) : Json :=
  .jobj [
    (str2b "format", .jstr (str2b "RealTerrain Package")),
    (str2b "version", .jnum 1),
    (str2b "created", .jstr args.created),
    (str2b "plugin_version", .jstr (str2b "1.0.0")),
    (str2b "project", .jobj [
      (str2b "name", (jlook args.projectInfo (str2b "name")).getD (.jstr (str2b "Unnamed"))),
      (str2b "profile", (jlook args.projectInfo (str2b "profile")).getD (.jstr (str2b "custom"))),
      (str2b "location", (jlook args.projectInfo (str2b "location")).getD (.jstr (str2b "Unknown"))),
      (str2b "bbox", (jlook args.projectInfo (str2b "bbox")).getD (.jarr [.jnum 0, .jnum 0, .jnum 0, .jnum 0])),
      (str2b "area_km2", (jlook args.projectInfo (str2b "area_km2")).getD (.jnum 0))]),
    (str2b "terrain", .jobj [
      (str2b "resolution_m", (jlook args.projectInfo (str2b "resolution")).getD (.jnum 30)),
      (str2b "coordinate_system", .jstr (str2b "WGS84"))]),
    (str2b "content", .jobj []),
    (str2b "ue5", .jobj [
      (str2b "recommended_lod_levels", .jnum 5),
      (str2b "nanite_recommended", .jbool false)]),
    (str2b "data_blocks", .jarr [])]

/-- Heightmap conditional of `_create_header`. -/
def stageHeightmap (hm : Option NpArr) (h : Json) : Option Json :=
  match hm with
  | none => some h
  | some a => do
    let h1 ← hSetIn h (str2b "terrain") (str2b "heightmap_size")
      (.jarr (a.shape.map fun n => .jnum (Int.ofNat n)))
    let h2 ← hSetIn h1 (str2b "terrain") (str2b "min_elevation") (.jnum (npNanmin a))
    let h3 ← hSetIn h2 (str2b "terrain") (str2b "max_elevation") (.jnum (npNanmax a))
    let h4 ← hSetIn h3 (str2b "content") (str2b "heightmap") (.jbool true)
    hAppendAt h4 (str2b "data_blocks") (.jstr (str2b "heightmap"))

/-- Satellite conditional of `_create_header`; creates the textures dict. -/
def stageSatellite (sat : Option (List Nat)) (h : Json) : Option Json :=
  match sat with
  | none => some h
  | some b => do
    let h1 := hSet h (str2b "textures") (.jobj [
      (str2b "satellite_format", .jstr (str2b "JPEG")),
      (str2b "satellite_size_bytes", .jnum b.length),
      (str2b "compression", .jstr (str2b "high"))])
    let h2 ← hSetIn h1 (str2b "content") (str2b "satellite") (.jbool true)
    hAppendAt h2 (str2b "data_blocks") (.jstr (str2b "satellite"))

/-- Appends a list of block names to the data_blocks header entry. -/
def hAppendNames : Json → List (List Nat) → Option Json
  | h, [] => some h
  | h, n :: t => do
    hAppendNames (← hAppendAt h (str2b "data_blocks") (.jstr n)) t

/-- Materials conditional of `_create_header`; subscripts the textures dict,
so it fails with a KeyError when no satellite created it. -/
def stageMaterials (ms : Option (List (List Nat × NpArr))) (h : Json) : Option Json :=
  match ms with
  | none => some h
  | some ml => do
    let h1 ← hSetIn h (str2b "textures") (str2b "material_layers")
      (.jarr (ml.map fun p => .jstr p.1))
    let h2 ← hSetIn h1 (str2b "content") (str2b "materials") (.jbool true)
    hAppendNames h2 (ml.map fun p => str2b "material_" ++ p.1)

/-- OSM conditional of `_create_header`. -/
def stageOsm (osm : Option Json) (h : Json) : Option Json :=
  match osm with
  | none => some h
  | some od => do
    let objs ← pyGet od (str2b "objects") (.jarr [])
    let n ← pyLen objs
    let h1 ← hSetIn h (str2b "content") (str2b "osm_objects") (.jnum n)
    hAppendAt h1 (str2b "data_blocks") (.jstr (str2b "osm_data"))

/-- Vegetation conditional of `_create_header`. -/
def stageVegetation (veg : Option Json) (h : Json) : Option Json :=
  match veg with
  | none => some h
  | some vd => do
    let spawns ← pyGet vd (str2b "spawns") (.jarr [])
    let n ← pyLen spawns
    let h1 ← hSetIn h (str2b "content") (str2b "vegetation_spawns") (.jnum n)
    hAppendAt h1 (str2b "data_blocks") (.jstr (str2b "vegetation"))

/-- Tactical conditional of `_create_header`. -/
def stageTactical (tac : Option Json) (h : Json) : Option Json :=
  match tac with
  | none => some h
  | some _ => do
    let h1 ← hSetIn h (str2b "content") (str2b "tactical_analysis") (.jbool true)
    hAppendAt h1 (str2b "data_blocks") (.jstr (str2b "tactical"))

/-- Models `RTerrainFormat._create_header`: the skeleton followed by the six
per-artifact conditionals. profile_config is not an argument of the source
function and leaves no trace here. -/
def createHeader (args : PkgArgs) : Option Json := do
  let h1 ← stageHeightmap args.heightmap (baseHeader args)
  let h2 ← stageSatellite args.satellite h1
  let h3 ← stageMaterials args.materials h2
  let h4 ← stageOsm args.osm_data h3
  let h5 ← stageVegetation args.vegetation h4
  stageTactical args.tactical h5

/-- The magic tag b{}RTER. -/
def MAGICB : List Nat := str2b "RTER"

def VERSION : Nat := 1

/-- Every byte create_package emits before the trailing checksum: magic,
version, length-prefixed header, block records, length-prefixed index. -/
def pkgBody (args : PkgArgs) : Option (List Nat) := do
  let hd ← createHeader args
  let hb ← dumpsInd hd
  let hlen ← packU32 hb.length
  let vb ← packU32 VERSION
  let (blocksB, idx) ← writeBlocksAux (pkgBlocks args) (12 + hb.length) [] []
  let ib ← dumps (.jobj idx)
  let ilen ← packU32 ib.length
  pure (MAGICB ++ vb ++ hlen ++ hb ++ blocksB ++ ilen ++ ib)

/-- Models f.read(count) on the handle create_package opens: mode wb is
write-only, so io raises UnsupportedOperation on every read of it, whatever
the count asked for. -/
def wbRead (_count : Nat) : Option (List Nat) := none

/-- Models `RTerrainFormat._write_checksum` over the write-only handle: after
seek(0) the loop guard f.tell() < end_pos holds whenever anything was
written, and the loop body then calls f.read(8192), which raises. The rest of
the function — hashing the chunks, seeking back to the end and appending the
digest, sha256B of the body — is reached by no execution with a nonempty
body. -/
def write_checksum (body : List Nat) : Option (List Nat) :=
  if body.length = 0 then some (body ++ sha256B body)
  else do
    let _ ← wbRead 8192
    pure (body ++ sha256B body)

/-- Models `RTerrainFormat.create_package`: the magic, version, header, block
and index bytes of pkgBody are written, then step 6 calls _write_checksum,
which raises reading the write-only handle, so the call never returns
normally. The with block still closes the file, which is left holding exactly
the pkgBody bytes, digest absent. -/
def create_package (args : PkgArgs) : Option (List Nat) := do
  let body ← pkgBody args
  write_checksum body

/-- Errors read_package can raise before the block scan begins. -/
inductive RErr where
  | notRTerrain (magic : List Nat)
  | unsupportedVersion (v : Nat)
  | structShort
  | headerJson
deriving DecidableEq

/-- The loaded package: header record and the data_blocks dict. -/
structure Pkg where
  header : Json
  blocks : List (BKey × PyValue)

/-- Models passing a parsed JSON value as the count of f.read: ints read
that many bytes with negative meaning the rest, bools coerce to 0 or 1,
anything else is a TypeError. -/
def pyReadCount : Json → Option Int
  | .jnum n => some n
  | .jbool b => some (if b then 1 else 0)
  | _ => none

/-- Models np.dtype resolution of the metadata dtype field: a covered name
string, or null which numpy defaults to float64. -/
def dtypeOfJson : Json → Option (List Nat × Nat)
  | .jstr s => (dtypeSize s).map (fun k => (s, k))
  | .jnull => some (str2b "float64", 8)
  | _ => none

/-- Reads a reshape target list of nonnegative dims; the -1 inference of
numpy is outside the model and the writer never emits it. -/
def shapeList : List Json → Option (List Nat)
  | [] => some []
  | .jnum n :: t => if 0 ≤ n then (shapeList t).map (n.toNat :: ·) else none
  | _ :: _ => none

/-- Models the argument a.reshape accepts: a list of dims or a single int. -/
def shapeOfJson : Json → Option (List Nat)
  | .jarr l => shapeList l
  | .jnum n => if 0 ≤ n then some [n.toNat] else none
  | _ => none

/-- Models the per-type payload conversion of read_package: numpy buffers
via frombuffer+reshape, json via loads, anything else raw bytes. -/
def decodePayload (ty : Json) (bh : Json) (db : List Nat) : Option PyValue :=
  match ty with
  | .jstr s =>
    if s = str2b "numpy" then
      match jget bh (str2b "dtype") with
      | none => none
      | some dj =>
        match dtypeOfJson dj with
        | none => none
        | some (dn, isz) =>
          if db.length % isz = 0 then
            match jget bh (str2b "shape") with
            | none => none
            | some sj =>
              match shapeOfJson sj with
              | none => none
              | some shape =>
                if prodL shape = db.length / isz then
                  some (.npArray ⟨dn, shape, db⟩)
                else none
          else none
    else if s = str2b "json" then (loads db).map .pyjson
    else some (.pybytes db)
  | _ => some (.pybytes db)

/-- Checks the recomputed hex digest against the stored checksum field the
way the Python != does: equal only when the field is an equal string. -/
def ckMatches : Json → List Nat → Bool
  | .jstr s, c => s == c
  | _, _ => false

/-- One iteration body of the block-scan loop of read_package: every break
path inside the try block, including the index boundary heuristic and every
exception, comes back as `none`. -/
def parseBlockAt (bytes : List Nat) (pos : Nat) : Option (BKey × PyValue × Nat) :=
  let szb := readAt bytes pos 4
  if szb.length < 4 then none
  else
    let bhsz := leU32 szb
    if 100000 < bhsz then none
    else
      let bhb := readAt bytes (pos + 4) bhsz
      match loads bhb with
      | none => none
      | some bh =>
        match (jget bh (str2b "compressed_size")).bind pyReadCount with
        | none => none
        | some cs =>
          let avail := bytes.length - (pos + 4 + bhb.length)
          let cnt := if cs < 0 then avail else min cs.toNat avail
          let comp := readAt bytes (pos + 4 + bhb.length) cnt
          match jget bh (str2b "checksum") with
          | none => none
          | some ck =>
            if ckMatches ck (md5hex comp) then
              match zdecompress comp with
              | none => none
              | some db =>
                match jget bh (str2b "type") with
                | none => none
                | some ty =>
                  match decodePayload ty bh db with
                  | none => none
                  | some pv =>
                    match (jget bh (str2b "name")).bind toKey with
                    | none => none
                    | some key => some (key, pv, pos + 4 + bhb.length + comp.length)
            else none

/-- Models data_blocks[name] = value. -/
def bSet : List (BKey × PyValue) → BKey → PyValue → List (BKey × PyValue)
  | [], k, v => [(k, v)]
  | (k1, v1) :: t, k, v => if k1 = k then (k, v) :: t else (k1, v1) :: bSet t k v

/-- Models data_blocks.get(name). -/
def bLook : List (BKey × PyValue) → BKey → Option PyValue
  | [], _ => none
  | (k1, v) :: t, k => if k1 = k then some v else bLook t k

/-- The block-scan while loop of read_package: runs while the position is
strictly before file length minus the 32 digest bytes, stops at the first
iteration whose body breaks, and otherwise stores the block and continues.
The fuel argument models the loop bound; read_package passes the file
length, which the at-least-four-byte advance per iteration makes ample. -/
def scan : Nat → List Nat → Nat → List (BKey × PyValue) → List (BKey × PyValue)
  | 0, _, _, acc => acc
  | fu + 1, bytes, pos, acc =>
    if pos < bytes.length - 32 then
      match parseBlockAt bytes pos with
      | none => acc
      | some (k, v, pos2) => scan fu bytes pos2 (bSet acc k v)
    else acc

/-- Models `RTerrainFormat.read_package` over the file bytes: magic and
version gates, header load, then the block scan; the index record and the
trailing digest are never touched. -/
def read_package (bytes : List Nat) : Except RErr Pkg :=
  if bytes.take 4 ≠ MAGICB then .error (.notRTerrain (bytes.take 4))
  else
    let vb := readAt bytes 4 4
    if vb.length < 4 then .error .structShort
    else if leU32 vb ≠ VERSION then .error (.unsupportedVersion (leU32 vb))
    else
      let hlb := readAt bytes 8 4
      if hlb.length < 4 then .error .structShort
      else
        let hb := readAt bytes 12 (leU32 hlb)
        match loads hb with
        | none => .error .headerJson
        | some hd => .ok ⟨hd, scan bytes.length bytes (12 + hb.length) []⟩

/-- Models list_data_blocks(): the keys of the data_blocks dict. -/
def list_data_blocks (p : Pkg) : List BKey := p.blocks.map (·.1)

/-- All-whitespace byte lists. -/
def wsList (l : List Nat) : Bool := l.all isWsB

/-- True when the input does not start with a digit, so that a preceding
number token cannot swallow it. -/
def noDigitHead : List Nat → Bool
  | [] => true
  | c :: _ => !isDigit c

/-- Proof-side statement that s is a serialization of j produced by either
style of the dumps model, at some fuel. -/
def SerOf (j : Json) (s : List Nat) : Prop :=
  (∃ fu, dumpsV fu j = some s) ∨ (∃ fu d, dumpsIV fu d j = some s)

/-- Proof-side statement that the reader recovers exactly j from x in any
whitespace context the serializers produce. -/
def ParsesAs (j : Json) (x : List Nat) : Prop :=
  1 ≤ x.length ∧ ∀ pfu ws rest, wsList ws = true → noDigitHead rest = true →
    x.length ≤ pfu → parseVal pfu (ws ++ x ++ rest) = some (j, rest)

/-- Concatenated bytes of a block list as the writer emits them; the offset
threading of `writeBlocksAux` does not change the bytes, which this spec
view makes inductive proofs over the block region follow. -/
def blocksBytesSpec : List (List Nat × PyValue) → Option (List Nat)
  | [] => some []
  | (n, v) :: t => do
    let e ← encodeBlock n v
    let tb ← blocksBytesSpec t
    pure (encBytes e ++ tb)

/-- Wellformedness of a block list in the model: every payload encodes, is
wellformed, and its metadata record stays at or under the scan threshold. -/
def blocksWF : List (List Nat × PyValue) → Bool
  | [] => true
  | (n, v) :: t =>
    (match encodeBlock n v with
     | some e => decide (e.bh.length ≤ 100000) && pvWF v
     | none => false) && blocksWF t

/-- The data_blocks dict the scan builds from a written block list. -/
def pkgMap (bs : List (List Nat × PyValue)) : List (BKey × PyValue) :=
  bs.foldl (fun a p => bSet a (.kstr p.1) p.2) []

/-- The compressed bytes the loop body reads for the candidate block at pos
whose metadata record is bh and occupies bhlen bytes; repeats the read of
the loop body so that a digest-mismatch hypothesis can name these bytes. -/
def compAt (bytes : List Nat) (pos bhlen : Nat) (bh : Json) : List Nat :=
  match (jget bh (str2b "compressed_size")).bind pyReadCount with
  | none => []
  | some cs =>
    let avail := bytes.length - (pos + 4 + bhlen)
    let cnt := if cs < 0 then avail else min cs.toNat avail
    readAt bytes (pos + 4 + bhlen) cnt

/-- Concrete inputs for the claim checks below. -/
def w1v : PyValue := .pyjson (.jobj [(str2b "k", .jnum 5)])

def w1e : BlockEnc := (encodeBlock (str2b "osm_data") w1v).getD ⟨[], [], 0⟩

def c3badHdr : Json := .jobj [
  (str2b "name", .jstr (str2b "a")),
  (str2b "type", .jstr (str2b "bytes")),
  (str2b "dtype", .jnull),
  (str2b "shape", .jnull),
  (str2b "uncompressed_size", .jnum 1),
  (str2b "compressed_size", .jnum 3),
  (str2b "compression", .jstr (str2b "zlib")),
  (str2b "checksum", .jstr (str2b "00"))]

def c3badBytes : List Nat := (dumps c3badHdr).getD []

def c3pre : List Nat := MAGICB ++ pack32 1 ++ pack32 2 ++ str2b "\x7b\x7d"

def c3blockA : List Nat := pack32 c3badBytes.length ++ c3badBytes ++ zcompress [7]

def c3blockB : List Nat := encBytes ((encodeBlock (str2b "b") (.pybytes [8])).getD ⟨[], [], 0⟩)

def c3bytes : List Nat := c3pre ++ c3blockA ++ c3blockB ++ List.replicate 36 0

def w6 : PkgArgs := ⟨[], str2b "d", none, none, none, none, none, none, none⟩

def a7 : PkgArgs := ⟨[], str2b "d", none, some [9], none, none, none, none, none⟩

def c7hd : Json := (createHeader a7).getD .jnull

def c7hb : List Nat := (dumpsInd c7hd).getD []

def c7blk : List Nat := encBytes ((encodeBlock (str2b "satellite") (.pybytes [9])).getD ⟨[], [], 0⟩)

def c7pre : List Nat := MAGICB ++ pack32 1 ++ pack32 c7hb.length ++ c7hb ++ c7blk

def c7idx : List Nat :=
  (dumps (.jobj (objSet [] (str2b "satellite")
    (idxEntry (12 + c7hb.length) c7blk.length (.pybytes [9]) (zcompress [9]).length 1)))).getD []

def c7fileA : List Nat :=
  c7pre ++ pack32 c7idx.length ++ c7idx ++ sha256B (c7pre ++ pack32 c7idx.length ++ c7idx)

def c7fake : List Nat := encBytes ((encodeBlock (str2b "x") (.pybytes [1])).getD ⟨[], [], 0⟩)

def c7fileB : List Nat := c7pre ++ c7fake ++ List.replicate 32 0

def c7A : Pkg :=
  match read_package c7fileA with
  | .ok p => p
  | .error _ => ⟨.jnull, []⟩

def c7B : Pkg :=
  match read_package c7fileB with
  | .ok p => p
  | .error _ => ⟨.jnull, []⟩

/-- Names one per-artifact conditional of `_create_header` appends to the
data_blocks list: the artifact's block name when the artifact is present. -/
def segNames (present : Bool) (n : List Nat) : List Json :=
  if present then [Json.jstr n] else []

/-- Names the materials conditional of `_create_header` appends: one
material_-prefixed name per layer. -/
def matNames (ms : Option (List (List Nat × NpArr))) : List Json :=
  match ms with
  | some ml => ml.map (fun p => Json.jstr (str2b "material_" ++ p.1))
  | none => []

/-- The block names the header's data_blocks list should end up recording:
every block of the package except the profile block, in writer order. -/
def pkgNames (args : PkgArgs) : List Json :=
  (pkgBlocks { args with profile_config := none }).map (fun p => Json.jstr p.1)

/-! Basic facts about bytes, reads, whitespace, digits and strings. -/

theorem pack32_length (n : Nat) : (pack32 n).length = 4 := rfl

theorem leU32_pack32 (n : Nat) (h : n < 4294967296) : leU32 (pack32 n) = n := by
  simp only [pack32, leU32]
  omega

theorem readAt_at (a b c : List Nat) (p m : Nat) (hp : p = a.length) (hm : m = b.length) :
    readAt (a ++ (b ++ c)) p m = b := by
  subst hp hm
  rw [readAt, List.drop_left, List.take_left]

theorem readAt_all (a b : List Nat) (p m : Nat) (hp : p = a.length) (hm : m = b.length) :
    readAt (a ++ b) p m = b := by
  subst hp hm
  rw [readAt, List.drop_left, List.take_length]

theorem bytesBE_length (w n : Nat) : (bytesBE w n).length = w := by
  induction w generalizing n with
  | zero => rfl
  | succ w ih => simp [bytesBE, ih]

theorem sha256B_length (data : List Nat) : (sha256B data).length = 32 := by
  simp [sha256B, bytesBE_length]

theorem zdecompress_zcompress (d : List Nat) : zdecompress (zcompress d) = some d := rfl

theorem skipWs_not_ws (c : Nat) (r : List Nat) (h : isWsB c = false) :
    skipWs (c :: r) = c :: r := by
  simp [skipWs, h]

theorem skipWs_ws_append (ws x : List Nat) (h : wsList ws = true) :
    skipWs (ws ++ x) = skipWs x := by
  induction ws with
  | nil => rfl
  | cons c t ih =>
    simp only [wsList, List.all_cons, Bool.and_eq_true] at h
    simpa [skipWs, h.1] using ih (by simpa [wsList] using h.2)

theorem ws_not_digit (c : Nat) (h : isWsB c = true) : isDigit c = false := by
  simp only [isWsB, Bool.or_eq_true, beq_iff_eq] at h
  simp only [isDigit, Bool.and_eq_false_iff, decide_eq_false_iff_not]
  omega

theorem digsVal_append (l : List Nat) (d : Nat) :
    digsVal (l ++ [d]) = 10 * digsVal l + (d - 48) := by
  simp [digsVal, List.foldl_append, Nat.mul_comm]

theorem natDigsAux_spec (fu : Nat) : ∀ n, n ≤ fu →
    (natDigsAux fu n).all isDigit = true ∧ digsVal (natDigsAux fu n) = n ∧
    natDigsAux fu n ≠ [] := by
  induction fu with
  | zero =>
    intro n hn
    interval_cases n
    refine ⟨?_, ?_, ?_⟩ <;> simp [natDigsAux, digsVal, isDigit]
  | succ fu ih =>
    intro n hn
    by_cases h10 : n < 10
    · refine ⟨?_, ?_, ?_⟩ <;> simp [natDigsAux, h10, digsVal, isDigit] <;> omega
    · have hdiv : n / 10 ≤ fu := by
        have := Nat.div_lt_self (by omega : 0 < n) (by omega : 1 < 10)
        omega
      obtain ⟨ha, hv, hne⟩ := ih (n / 10) hdiv
      have hstep : natDigsAux (fu + 1) n = natDigsAux fu (n / 10) ++ [48 + n % 10] := by
        simp [natDigsAux, h10]
      refine ⟨?_, ?_, ?_⟩
      · simp only [hstep, List.all_append, Bool.and_eq_true]
        refine ⟨ha, ?_⟩
        simp [isDigit]
        omega
      · rw [hstep, digsVal_append, hv]
        omega
      · simp [hstep]

theorem natDigs_digits (n : Nat) : (natDigs n).all isDigit = true :=
  (natDigsAux_spec n n le_rfl).1

theorem digsVal_natDigs (n : Nat) : digsVal (natDigs n) = n :=
  (natDigsAux_spec n n le_rfl).2.1

theorem natDigs_ne_nil (n : Nat) : natDigs n ≠ [] :=
  (natDigsAux_spec n n le_rfl).2.2

theorem digSpan_append (ds : List Nat) : ∀ rest, ds.all isDigit = true →
    noDigitHead rest = true → digSpan (ds ++ rest) = (ds, rest) := by
  induction ds with
  | nil =>
    intro rest _ hrest
    match rest with
    | [] => rfl
    | c :: r =>
      simp only [noDigitHead, Bool.not_eq_true'] at hrest
      simp [digSpan, hrest]
  | cons d t ih =>
    intro rest hds hrest
    simp only [List.all_cons, Bool.and_eq_true] at hds
    simp [digSpan, hds.1, ih rest hds.2 hrest]

theorem cleanByte_facts (c : Nat) (h : cleanByte c = true) :
    c ≠ 34 ∧ c ≠ 92 ∧ 32 ≤ c ∧ c ≤ 126 := by
  simp only [cleanByte, Bool.and_eq_true, decide_eq_true_eq] at h
  exact ⟨h.1.2, h.2, h.1.1.1, h.1.1.2⟩

theorem strSpan_append (s : List Nat) : ∀ rest, cleanStr s = true →
    strSpan (s ++ 34 :: rest) = some (s, rest) := by
  induction s with
  | nil => intro rest _; rfl
  | cons c t ih =>
    intro rest hs
    simp only [cleanStr, List.all_cons, Bool.and_eq_true] at hs
    obtain ⟨h34, h92, -, -⟩ := cleanByte_facts c hs.1
    simp only [List.cons_append, strSpan]
    rw [if_neg (by simpa using h34), if_neg (by simpa using h92), List.append_eq,
      ih rest (by simpa [cleanStr] using hs.2)]
    rfl

/-! Inversion facts about the serializer models. -/

theorem dumpsV_eq_null (fu : Nat) (s : List Nat) (h : dumpsV fu .jnull = some s) :
    s = str2b "null" := by
  cases fu <;> simp [dumpsV] at h
  exact h.symm

theorem dumpsV_eq_bool (fu : Nat) (b : Bool) (s : List Nat)
    (h : dumpsV fu (.jbool b) = some s) :
    s = if b then str2b "true" else str2b "false" := by
  cases fu <;> simp [dumpsV] at h
  exact h.symm

theorem dumpsV_eq_num (fu : Nat) (n : Int) (s : List Nat)
    (h : dumpsV fu (.jnum n) = some s) : s = intDigs n := by
  cases fu <;> simp [dumpsV] at h
  exact h.symm

theorem dumpsV_eq_str (fu : Nat) (t s : List Nat) (h : dumpsV fu (.jstr t) = some s) :
    cleanStr t = true ∧ s = 34 :: (t ++ [34]) := by
  cases fu with
  | zero => simp [dumpsV] at h
  | succ fu =>
    simp only [dumpsV] at h
    by_cases hc : cleanStr t = true
    · rw [if_pos hc] at h
      exact ⟨hc, (Option.some.injEq _ _ ▸ h).symm⟩
    · rw [if_neg hc] at h
      exact absurd h (by simp)

theorem dumpsV_eq_arr (fu : Nat) (l : List Json) (s : List Nat)
    (h : dumpsV fu (.jarr l) = some s) :
    ∃ fu2 items, fu = fu2 + 1 ∧ dumpsL fu2 l = some items ∧ s = renderArrC items := by
  cases fu with
  | zero => simp [dumpsV] at h
  | succ fu =>
    simp only [dumpsV, Option.map_eq_some'] at h
    obtain ⟨items, h1, h2⟩ := h
    exact ⟨fu, items, rfl, h1, h2.symm⟩

theorem dumpsV_eq_obj (fu : Nat) (l : List (List Nat × Json)) (s : List Nat)
    (h : dumpsV fu (.jobj l) = some s) :
    ∃ fu2 fields, fu = fu2 + 1 ∧ dumpsO fu2 l = some fields ∧ s = renderObjC fields := by
  cases fu with
  | zero => simp [dumpsV] at h
  | succ fu =>
    simp only [dumpsV, Option.map_eq_some'] at h
    obtain ⟨fields, h1, h2⟩ := h
    exact ⟨fu, fields, rfl, h1, h2.symm⟩

theorem dumpsIV_eq_null (fu d : Nat) (s : List Nat) (h : dumpsIV fu d .jnull = some s) :
    s = str2b "null" := by
  cases fu <;> simp [dumpsIV] at h
  exact h.symm

theorem dumpsIV_eq_bool (fu d : Nat) (b : Bool) (s : List Nat)
    (h : dumpsIV fu d (.jbool b) = some s) :
    s = if b then str2b "true" else str2b "false" := by
  cases fu <;> simp [dumpsIV] at h
  exact h.symm

theorem dumpsIV_eq_num (fu d : Nat) (n : Int) (s : List Nat)
    (h : dumpsIV fu d (.jnum n) = some s) : s = intDigs n := by
  cases fu <;> simp [dumpsIV] at h
  exact h.symm

theorem dumpsIV_eq_str (fu d : Nat) (t s : List Nat) (h : dumpsIV fu d (.jstr t) = some s) :
    cleanStr t = true ∧ s = 34 :: (t ++ [34]) := by
  cases fu with
  | zero => simp [dumpsIV] at h
  | succ fu =>
    simp only [dumpsIV] at h
    by_cases hc : cleanStr t = true
    · rw [if_pos hc] at h
      exact ⟨hc, (Option.some.injEq _ _ ▸ h).symm⟩
    · rw [if_neg hc] at h
      exact absurd h (by simp)

theorem dumpsIV_eq_arr (fu d : Nat) (l : List Json) (s : List Nat)
    (h : dumpsIV fu d (.jarr l) = some s) :
    ∃ fu2 items, fu = fu2 + 1 ∧ dumpsIL fu2 (d + 1) l = some items ∧
      s = renderArrI d items := by
  cases fu with
  | zero => simp [dumpsIV] at h
  | succ fu =>
    simp only [dumpsIV, Option.map_eq_some'] at h
    obtain ⟨items, h1, h2⟩ := h
    exact ⟨fu, items, rfl, h1, h2.symm⟩

theorem dumpsIV_eq_obj (fu d : Nat) (l : List (List Nat × Json)) (s : List Nat)
    (h : dumpsIV fu d (.jobj l) = some s) :
    ∃ fu2 fields, fu = fu2 + 1 ∧ dumpsIO fu2 (d + 1) l = some fields ∧
      s = renderObjI d fields := by
  cases fu with
  | zero => simp [dumpsIV] at h
  | succ fu =>
    simp only [dumpsIV, Option.map_eq_some'] at h
    obtain ⟨fields, h1, h2⟩ := h
    exact ⟨fu, fields, rfl, h1, h2.symm⟩

theorem dumpsL_eq_nil (fu : Nat) (items : List (List Nat))
    (h : dumpsL fu [] = some items) : items = [] := by
  cases fu <;> simp [dumpsL] at h
  exact h

theorem dumpsL_eq_cons (fu : Nat) (j : Json) (t : List Json) (items : List (List Nat))
    (h : dumpsL fu (j :: t) = some items) :
    ∃ fu2 x xs, fu = fu2 + 1 ∧ dumpsV fu2 j = some x ∧ dumpsL fu2 t = some xs ∧
      items = x :: xs := by
  cases fu with
  | zero => simp [dumpsL] at h
  | succ fu =>
    simp only [dumpsL, Option.bind_eq_bind, Option.bind_eq_some] at h
    obtain ⟨x, hx, xs, hxs, hi⟩ := h
    exact ⟨fu, x, xs, rfl, hx, hxs, by simpa using hi.symm⟩

theorem dumpsO_eq_nil (fu : Nat) (fields : List (List Nat))
    (h : dumpsO fu [] = some fields) : fields = [] := by
  cases fu <;> simp [dumpsO] at h
  exact h

theorem dumpsO_eq_cons (fu : Nat) (k : List Nat) (v : Json)
    (t : List (List Nat × Json)) (fields : List (List Nat))
    (h : dumpsO fu ((k, v) :: t) = some fields) :
    ∃ fu2 x xs, fu = fu2 + 1 ∧ cleanStr k = true ∧ dumpsV fu2 v = some x ∧
      dumpsO fu2 t = some xs ∧ fields = renderKeyC k x :: xs := by
  cases fu with
  | zero => simp [dumpsO] at h
  | succ fu =>
    simp only [dumpsO] at h
    by_cases hk : cleanStr k = true
    · rw [if_pos hk] at h
      simp only [Option.bind_eq_bind, Option.bind_eq_some] at h
      obtain ⟨x, hx, xs, hxs, hi⟩ := h
      exact ⟨fu, x, xs, rfl, hk, hx, hxs, by simpa using hi.symm⟩
    · rw [if_neg hk] at h
      exact absurd h (by simp)

theorem dumpsIL_eq_nil (fu d : Nat) (items : List (List Nat))
    (h : dumpsIL fu d [] = some items) : items = [] := by
  cases fu <;> simp [dumpsIL] at h
  exact h

theorem dumpsIL_eq_cons (fu d : Nat) (j : Json) (t : List Json) (items : List (List Nat))
    (h : dumpsIL fu d (j :: t) = some items) :
    ∃ fu2 x xs, fu = fu2 + 1 ∧ dumpsIV fu2 d j = some x ∧ dumpsIL fu2 d t = some xs ∧
      items = x :: xs := by
  cases fu with
  | zero => simp [dumpsIL] at h
  | succ fu =>
    simp only [dumpsIL, Option.bind_eq_bind, Option.bind_eq_some] at h
    obtain ⟨x, hx, xs, hxs, hi⟩ := h
    exact ⟨fu, x, xs, rfl, hx, hxs, by simpa using hi.symm⟩

theorem dumpsIO_eq_nil (fu d : Nat) (fields : List (List Nat))
    (h : dumpsIO fu d [] = some fields) : fields = [] := by
  cases fu <;> simp [ dumpsIO] at h
  exact h

theorem dumpsIO_eq_cons (fu d : Nat) (k : List Nat) (v : Json)
    (t : List (List Nat × Json)) (fields : List (List Nat))
    (h : dumpsIO fu d ((k, v) :: t) = some fields) :
    ∃ fu2 x xs, fu = fu2 + 1 ∧ cleanStr k = true ∧ dumpsIV fu2 d v = some x ∧
      dumpsIO fu2 d t = some xs ∧ fields = renderKeyC k x :: xs := by
  cases fu with
  | zero => simp [ dumpsIO] at h
  | succ fu =>
    simp only [ dumpsIO] at h
    by_cases hk : cleanStr k = true
    · rw [if_pos hk] at h
      simp only [Option.bind_eq_bind, Option.bind_eq_some] at h
      obtain ⟨x, hx, xs, hxs, hi⟩ := h
      exact ⟨fu, x, xs, rfl, hk, hx, hxs, by simpa using hi.symm⟩
    · rw [if_neg hk] at h
      exact absurd h (by simp)

/-! Head shapes of serialized values. -/

theorem natDigs_head (n : Nat) :
    ∃ c r, natDigs n = c :: r ∧ isDigit c = true := by
  obtain ⟨c, r, hcr⟩ := List.exists_cons_of_ne_nil (natDigs_ne_nil n)
  refine ⟨c, r, hcr, ?_⟩
  have := natDigs_digits n
  rw [hcr] at this
  simp only [List.all_cons, Bool.and_eq_true] at this
  exact this.1

theorem joinSep_cons_ex (sep x : List Nat) (xs : List (List Nat)) :
    ∃ jr, joinSep sep (x :: xs) = x ++ jr := by
  cases xs with
  | nil => exact ⟨[], by simp [joinSep]⟩
  | cons y ys => exact ⟨sep ++ joinSep sep (y :: ys), by simp [joinSep]⟩

theorem joinSep_cons_cons (sep x y : List Nat) (xs : List (List Nat)) :
    joinSep sep (x :: y :: xs) = x ++ sep ++ joinSep sep (y :: xs) := rfl

theorem mem_joinSep_le (sep : List Nat) :
    ∀ (items : List (List Nat)) (x : List Nat), x ∈ items →
      x.length ≤ (joinSep sep items).length := by
  intro items
  induction items with
  | nil => intro x hx; simp at hx
  | cons y ys ih =>
    intro x hx
    obtain ⟨jr, hj⟩ := joinSep_cons_ex sep y ys
    rcases List.mem_cons.mp hx with h | h
    · subst h
      simp [hj]
    · cases ys with
      | nil => simp at h
      | cons z zs =>
        have := ih x h
        rw [joinSep_cons_cons]
        simp only [List.length_append]
        omega

/-- The possible first bytes of any serialized JSON value. -/
def valHead (c : Nat) : Prop :=
  c = 110 ∨ c = 116 ∨ c = 102 ∨ c = 34 ∨ c = 91 ∨ c = 123 ∨ c = 45 ∨ isDigit c = true

theorem valHead_facts (c : Nat) (h : valHead c) :
    isWsB c = false ∧ (c == 93) = false ∧ (c == 125) = false := by
  have hd : c = 110 ∨ c = 116 ∨ c = 102 ∨ c = 34 ∨ c = 91 ∨ c = 123 ∨ c = 45 ∨
      (48 ≤ c ∧ c ≤ 57) := by
    have h2 := h
    simp only [valHead, isDigit, Bool.and_eq_true, decide_eq_true_eq] at h2
    exact h2
  refine ⟨?_, ?_, ?_⟩
  · simp only [isWsB, Bool.or_eq_false_iff, beq_eq_false_iff_ne]
    omega
  · rw [beq_eq_false_iff_ne]
    omega
  · rw [beq_eq_false_iff_ne]
    omega

theorem serOf_head (j : Json) (s : List Nat) (h : SerOf j s) :
    ∃ c r, s = c :: r ∧ valHead c := by
  have harrC : ∀ items, ∃ r, renderArrC items = 91 :: r := by
    intro items; cases items <;> simp [renderArrC]
  have hobjC : ∀ fields, ∃ r, renderObjC fields = 123 :: r := by
    intro fields; cases fields <;> simp [renderObjC]
  have harrI : ∀ d items, ∃ r, renderArrI d items = 91 :: r := by
    intro d items; cases items <;> simp [renderArrI]
  have hobjI : ∀ d fields, ∃ r, renderObjI d fields = 123 :: r := by
    intro d fields; cases fields <;> simp [renderObjI]
  have hnum : ∀ (n : Int), ∃ c r, intDigs n = c :: r ∧ valHead c := by
    intro n
    match n with
    | .ofNat m =>
      obtain ⟨c, r, hcr, hc⟩ := natDigs_head m
      exact ⟨c, r, hcr, Or.inr (Or.inr (Or.inr (Or.inr (Or.inr (Or.inr (Or.inr hc))))))⟩
    | .negSucc m =>
      exact ⟨45, natDigs (m + 1), rfl,
        Or.inr (Or.inr (Or.inr (Or.inr (Or.inr (Or.inr (Or.inl rfl))))))⟩
  rcases h with ⟨fu, hser⟩ | ⟨fu, d, hser⟩
  · cases j with
    | jnull =>
      rw [dumpsV_eq_null fu s hser]
      exact ⟨110, _, rfl, Or.inl rfl⟩
    | jbool b =>
      rw [dumpsV_eq_bool fu b s hser]
      cases b
      · exact ⟨102, _, rfl, Or.inr (Or.inr (Or.inl rfl))⟩
      · exact ⟨116, _, rfl, Or.inr (Or.inl rfl)⟩
    | jnum n =>
      rw [dumpsV_eq_num fu n s hser]
      exact hnum n
    | jstr t =>
      rw [(dumpsV_eq_str fu t s hser).2]
      exact ⟨34, _, rfl, Or.inr (Or.inr (Or.inr (Or.inl rfl)))⟩
    | jarr l =>
      obtain ⟨fu2, items, -, -, hs⟩ := dumpsV_eq_arr fu l s hser
      obtain ⟨r, hr⟩ := harrC items
      exact ⟨91, r, hs.trans hr, Or.inr (Or.inr (Or.inr (Or.inr (Or.inl rfl))))⟩
    | jobj l =>
      obtain ⟨fu2, fields, -, -, hs⟩ := dumpsV_eq_obj fu l s hser
      obtain ⟨r, hr⟩ := hobjC fields
      exact ⟨123, r, hs.trans hr, Or.inr (Or.inr (Or.inr (Or.inr (Or.inr (Or.inl rfl)))))⟩
  · cases j with
    | jnull =>
      rw [dumpsIV_eq_null fu d s hser]
      exact ⟨110, _, rfl, Or.inl rfl⟩
    | jbool b =>
      rw [dumpsIV_eq_bool fu d b s hser]
      cases b
      · exact ⟨102, _, rfl, Or.inr (Or.inr (Or.inl rfl))⟩
      · exact ⟨116, _, rfl, Or.inr (Or.inl rfl)⟩
    | jnum n =>
      rw [dumpsIV_eq_num fu d n s hser]
      exact hnum n
    | jstr t =>
      rw [(dumpsIV_eq_str fu d t s hser).2]
      exact ⟨34, _, rfl, Or.inr (Or.inr (Or.inr (Or.inl rfl)))⟩
    | jarr l =>
      obtain ⟨fu2, items, -, -, hs⟩ := dumpsIV_eq_arr fu d l s hser
      obtain ⟨r, hr⟩ := harrI d items
      exact ⟨91, r, hs.trans hr, Or.inr (Or.inr (Or.inr (Or.inr (Or.inl rfl))))⟩
    | jobj l =>
      obtain ⟨fu2, fields, -, -, hs⟩ := dumpsIV_eq_obj fu d l s hser
      obtain ⟨r, hr⟩ := hobjI d fields
      exact ⟨123, r, hs.trans hr, Or.inr (Or.inr (Or.inr (Or.inr (Or.inr (Or.inl rfl)))))⟩

theorem serOf_len_pos (j : Json) (s : List Nat) (h : SerOf j s) : 1 ≤ s.length := by
  obtain ⟨c, r, hcr, -⟩ := serOf_head j s h
  simp [hcr]

/-! Whitespace context facts for the parser. -/

theorem wsList_indentB (d : Nat) : wsList (indentB d) = true := by
  simp only [indentB, wsList, List.all_eq_true]
  intro c hc
  rw [List.eq_of_mem_replicate hc]
  rfl

theorem wsList_nl_indent (d : Nat) : wsList (10 :: indentB d) = true := by
  simp only [wsList, List.all_cons, Bool.and_eq_true]
  exact ⟨rfl, wsList_indentB d⟩

theorem wsList_space : wsList [32] = true := rfl

theorem noDigitHead_ws_cons (clWs : List Nat) (c : Nat) (rest : List Nat)
    (hcl : wsList clWs = true) (hc : isDigit c = false) :
    noDigitHead (clWs ++ c :: rest) = true := by
  cases clWs with
  | nil => simp [noDigitHead, hc]
  | cons a t =>
    simp only [wsList, List.all_cons, Bool.and_eq_true] at hcl
    simp [noDigitHead, ws_not_digit a hcl.1]

/-! The parser recovers a joined item sequence produced by either serializer
style: items separated by a comma plus whitespace, closed by a bracket after
optional whitespace. -/

theorem skipWs_34 (r : List Nat) : skipWs (34 :: r) = 34 :: r := skipWs_not_ws 34 r rfl

theorem skipWs_44 (r : List Nat) : skipWs (44 :: r) = 44 :: r := skipWs_not_ws 44 r rfl

theorem skipWs_58 (r : List Nat) : skipWs (58 :: r) = 58 :: r := skipWs_not_ws 58 r rfl

theorem skipWs_93 (r : List Nat) : skipWs (93 :: r) = 93 :: r := skipWs_not_ws 93 r rfl

theorem skipWs_125 (r : List Nat) : skipWs (125 :: r) = 125 :: r := skipWs_not_ws 125 r rfl

theorem parseItems_join (sepWs : List Nat) (hsep : wsList sepWs = true)
    (l : List Json) (items : List (List Nat))
    (hf : List.Forall₂ ParsesAs l items) :
    l ≠ [] → ∀ qfu ws clWs rest, wsList ws = true → wsList clWs = true →
    (joinSep (44 :: sepWs) items).length < qfu →
    parseItems qfu (ws ++ (joinSep (44 :: sepWs) items ++ (clWs ++ 93 :: rest))) =
      some (l, rest) := by
  induction hf with
  | nil => intro hne; exact absurd rfl hne
  | @cons j x l2 items2 hpx hf2 ih =>
    intro _ qfu ws clWs rest hws hcl hfuel
    obtain ⟨q, rfl⟩ : ∃ q, qfu = q + 1 := ⟨qfu - 1, by omega⟩
    cases hf2 with
    | nil =>
      simp only [joinSep] at hfuel ⊢
      have hrest : noDigitHead (clWs ++ 93 :: rest) = true :=
        noDigitHead_ws_cons clWs 93 rest hcl rfl
      have hval := hpx.2 q ws (clWs ++ 93 :: rest) hws hrest (by omega)
      simp only [List.append_assoc] at hval
      simp only [parseItems, List.append_assoc, hval, skipWs_ws_append clWs _ hcl,
        skipWs_93]
    | @cons p2 x2 l3 items3 hpx2 hf3 =>
      rw [joinSep_cons_cons] at hfuel ⊢
      have hfx : x.length ≤ q := by
        simp only [List.length_append, List.length_cons] at hfuel
        omega
      have hval := hpx.2 q ws
        (44 :: (sepWs ++ (joinSep (44 :: sepWs) (x2 :: items3) ++ (clWs ++ 93 :: rest))))
        hws rfl hfx
      simp only [List.append_assoc, List.cons_append] at hval
      have hrec := ih (by simp) q sepWs clWs rest hsep hcl (by
        simp only [List.length_append, List.length_cons] at hfuel
        omega)
      simp only [List.append_assoc] at hrec
      simp only [parseItems, List.append_assoc, List.cons_append, hval, skipWs_44,
        hrec, Option.map_some']

theorem parseFields_join (sepWs : List Nat) (hsep : wsList sepWs = true)
    (o : List (List Nat × Json)) (fields : List (List Nat))
    (hf : List.Forall₂
      (fun p f => ∃ x, f = renderKeyC p.1 x ∧ cleanStr p.1 = true ∧ ParsesAs p.2 x)
      o fields) :
    o ≠ [] → ∀ qfu ws clWs rest, wsList ws = true → wsList clWs = true →
    (joinSep (44 :: sepWs) fields).length < qfu →
    parseFields qfu (ws ++ (joinSep (44 :: sepWs) fields ++ (clWs ++ 125 :: rest))) =
      some (o, rest) := by
  induction hf with
  | nil => intro hne; exact absurd rfl hne
  | @cons p f o2 fields2 hpf hf2 ih =>
    intro _ qfu ws clWs rest hws hcl hfuel
    obtain ⟨q, rfl⟩ : ∃ q, qfu = q + 1 := ⟨qfu - 1, by omega⟩
    obtain ⟨x, hfx, hk, hpx⟩ := hpf
    obtain ⟨k, v⟩ := p
    simp only at hfx hk hpx
    have hlen : (renderKeyC k x).length = k.length + 4 + x.length := by
      simp only [renderKeyC, List.length_append, List.length_cons, List.length_nil]
    cases hf2 with
    | nil =>
      simp only [joinSep, hfx] at hfuel ⊢
      have hrest : noDigitHead (clWs ++ 125 :: rest) = true :=
        noDigitHead_ws_cons clWs 125 rest hcl rfl
      have hval := hpx.2 q [32] (clWs ++ 125 :: rest) rfl hrest (by omega)
      simp only [List.append_assoc, List.cons_append, List.nil_append] at hval
      have hstr := strSpan_append k (58 :: 32 :: (x ++ (clWs ++ 125 :: rest))) hk
      simp only [parseFields, renderKeyC, List.append_assoc, List.cons_append,
        List.nil_append, skipWs_ws_append ws _ hws, skipWs_34, hstr, skipWs_58, hval,
        skipWs_ws_append clWs _ hcl, skipWs_125]
    | @cons p2 f2 o3 fields3 hpf2 hf3 =>
      rw [joinSep_cons_cons, hfx] at hfuel ⊢
      have hfxq : x.length ≤ q := by
        simp only [List.length_append, List.length_cons, hlen] at hfuel
        omega
      have hval := hpx.2 q [32]
        (44 :: (sepWs ++ (joinSep (44 :: sepWs) (f2 :: fields3) ++ (clWs ++ 125 :: rest))))
        rfl rfl hfxq
      simp only [List.append_assoc, List.cons_append, List.nil_append] at hval
      have hstr := strSpan_append k
        (58 :: 32 :: (x ++ (44 :: (sepWs ++ (joinSep (44 :: sepWs) (f2 :: fields3) ++
          (clWs ++ 125 :: rest)))))) hk
      simp only [List.append_assoc, List.cons_append] at hstr
      have hrec := ih (by simp) q sepWs clWs rest hsep hcl (by
        simp only [List.length_append, List.length_cons, hlen] at hfuel
        omega)
      simp only [List.append_assoc] at hrec
      simp only [parseFields, renderKeyC, List.append_assoc, List.cons_append,
        List.nil_append, skipWs_ws_append ws _ hws, skipWs_34, hstr, skipWs_58, hval,
        skipWs_44, hrec, Option.map_some']

/-! Bridging from serializer runs to elementwise parser correctness. -/

theorem dumpsL_forall2 (l : List Json) : ∀ (fu : Nat) (items : List (List Nat)),
    dumpsL fu l = some items →
    (∀ j x, SerOf j x → x ∈ items → ParsesAs j x) →
    List.Forall₂ ParsesAs l items := by
  induction l with
  | nil =>
    intro fu items h _
    rw [dumpsL_eq_nil fu items h]
    exact .nil
  | cons j t ih =>
    intro fu items h H
    obtain ⟨fu2, x, xs, rfl, hx, hxs, rfl⟩ := dumpsL_eq_cons fu j t items h
    exact .cons (H j x (Or.inl ⟨fu2, hx⟩) (by simp))
      (ih fu2 xs hxs (fun j2 x2 hs hm => H j2 x2 hs (by simp [hm])))

theorem dumpsIL_forall2 (l : List Json) : ∀ (fu d : Nat) (items : List (List Nat)),
    dumpsIL fu d l = some items →
    (∀ j x, SerOf j x → x ∈ items → ParsesAs j x) →
    List.Forall₂ ParsesAs l items := by
  induction l with
  | nil =>
    intro fu d items h _
    rw [dumpsIL_eq_nil fu d items h]
    exact .nil
  | cons j t ih =>
    intro fu d items h H
    obtain ⟨fu2, x, xs, rfl, hx, hxs, rfl⟩ := dumpsIL_eq_cons fu d j t items h
    exact .cons (H j x (Or.inr ⟨fu2, d, hx⟩) (by simp))
      (ih fu2 d xs hxs (fun j2 x2 hs hm => H j2 x2 hs (by simp [hm])))

theorem dumpsO_forall2 (o : List (List Nat × Json)) :
    ∀ (fu : Nat) (fields : List (List Nat)),
    dumpsO fu o = some fields →
    (∀ j x k, SerOf j x → renderKeyC k x ∈ fields → ParsesAs j x) →
    List.Forall₂
      (fun p f => ∃ x, f = renderKeyC p.1 x ∧ cleanStr p.1 = true ∧ ParsesAs p.2 x)
      o fields := by
  induction o with
  | nil =>
    intro fu fields h _
    rw [dumpsO_eq_nil fu fields h]
    exact .nil
  | cons p t ih =>
    intro fu fields h H
    obtain ⟨k, v⟩ := p
    obtain ⟨fu2, x, xs, rfl, hk, hx, hxs, rfl⟩ := dumpsO_eq_cons fu k v t fields h
    exact .cons ⟨x, rfl, hk, H v x k (Or.inl ⟨fu2, hx⟩) (by simp)⟩
      (ih fu2 xs hxs (fun j2 x2 k2 hs hm => H j2 x2 k2 hs (by simp [hm])))

theorem dumpsIO_forall2 (o : List (List Nat × Json)) :
    ∀ (fu d : Nat) (fields : List (List Nat)),
    dumpsIO fu d o = some fields →
    (∀ j x k, SerOf j x → renderKeyC k x ∈ fields → ParsesAs j x) →
    List.Forall₂
      (fun p f => ∃ x, f = renderKeyC p.1 x ∧ cleanStr p.1 = true ∧ ParsesAs p.2 x)
      o fields := by
  induction o with
  | nil =>
    intro fu d fields h _
    rw [dumpsIO_eq_nil fu d fields h]
    exact .nil
  | cons p t ih =>
    intro fu d fields h H
    obtain ⟨k, v⟩ := p
    obtain ⟨fu2, x, xs, rfl, hk, hx, hxs, rfl⟩ := dumpsIO_eq_cons fu d k v t fields h
    exact .cons ⟨x, rfl, hk, H v x k (Or.inr ⟨fu2, d, hx⟩) (by simp)⟩
      (ih fu2 d xs hxs (fun j2 x2 k2 hs hm => H j2 x2 k2 hs (by simp [hm])))

/-! Shapes of serialized values by constructor, collapsing the two styles
where they agree. -/

theorem str2b_null : str2b "null" = [110, 117, 108, 108] := rfl

theorem str2b_true : str2b "true" = [116, 114, 117, 101] := rfl

theorem str2b_false : str2b "false" = [102, 97, 108, 115, 101] := rfl

theorem serOf_null (s : List Nat) (h : SerOf .jnull s) : s = [110, 117, 108, 108] := by
  rcases h with ⟨fu, h⟩ | ⟨fu, d, h⟩
  · rw [dumpsV_eq_null fu s h, str2b_null]
  · rw [dumpsIV_eq_null fu d s h, str2b_null]

theorem serOf_bool (b : Bool) (s : List Nat) (h : SerOf (.jbool b) s) :
    s = if b then [116, 114, 117, 101] else [102, 97, 108, 115, 101] := by
  rcases h with ⟨fu, h⟩ | ⟨fu, d, h⟩
  · rw [dumpsV_eq_bool fu b s h]
    cases b <;> simp [str2b_true, str2b_false]
  · rw [dumpsIV_eq_bool fu d b s h]
    cases b <;> simp [str2b_true, str2b_false]

theorem serOf_num (n : Int) (s : List Nat) (h : SerOf (.jnum n) s) : s = intDigs n := by
  rcases h with ⟨fu, h⟩ | ⟨fu, d, h⟩
  · exact dumpsV_eq_num fu n s h
  · exact dumpsIV_eq_num fu d n s h

theorem serOf_str (t s : List Nat) (h : SerOf (.jstr t) s) :
    cleanStr t = true ∧ s = 34 :: (t ++ [34]) := by
  rcases h with ⟨fu, h⟩ | ⟨fu, d, h⟩
  · exact dumpsV_eq_str fu t s h
  · exact dumpsIV_eq_str fu d t s h

theorem serOf_arr (l : List Json) (s : List Nat) (h : SerOf (.jarr l) s) :
    (∃ fu items, dumpsL fu l = some items ∧ s = renderArrC items) ∨
    (∃ fu d items, dumpsIL fu (d + 1) l = some items ∧ s = renderArrI d items) := by
  rcases h with ⟨fu, h⟩ | ⟨fu, d, h⟩
  · obtain ⟨fu2, items, -, h1, h2⟩ := dumpsV_eq_arr fu l s h
    exact Or.inl ⟨fu2, items, h1, h2⟩
  · obtain ⟨fu2, items, -, h1, h2⟩ := dumpsIV_eq_arr fu d l s h
    exact Or.inr ⟨fu2, d, items, h1, h2⟩

theorem serOf_obj (o : List (List Nat × Json)) (s : List Nat) (h : SerOf (.jobj o) s) :
    (∃ fu fields, dumpsO fu o = some fields ∧ s = renderObjC fields) ∨
    (∃ fu d fields, dumpsIO fu (d + 1) o = some fields ∧ s = renderObjI d fields) := by
  rcases h with ⟨fu, h⟩ | ⟨fu, d, h⟩
  · obtain ⟨fu2, fields, -, h1, h2⟩ := dumpsV_eq_obj fu o s h
    exact Or.inl ⟨fu2, fields, h1, h2⟩
  · obtain ⟨fu2, fields, -, h1, h2⟩ := dumpsIV_eq_obj fu d o s h
    exact Or.inr ⟨fu2, d, fields, h1, h2⟩

theorem dumpsL_some_nil (fu : Nat) (l : List Json) (h : dumpsL fu l = some []) :
    l = [] := by
  cases l with
  | nil => rfl
  | cons j t =>
    obtain ⟨fu2, x, xs, -, -, -, hc⟩ := dumpsL_eq_cons fu j t [] h
    exact absurd hc (by simp)

theorem dumpsIL_some_nil (fu d : Nat) (l : List Json) (h : dumpsIL fu d l = some []) :
    l = [] := by
  cases l with
  | nil => rfl
  | cons j t =>
    obtain ⟨fu2, x, xs, -, -, -, hc⟩ := dumpsIL_eq_cons fu d j t [] h
    exact absurd hc (by simp)

theorem dumpsO_some_nil (fu : Nat) (o : List (List Nat × Json))
    (h : dumpsO fu o = some []) : o = [] := by
  cases o with
  | nil => rfl
  | cons p t =>
    obtain ⟨k, v⟩ := p
    obtain ⟨fu2, x, xs, -, -, -, -, hc⟩ := dumpsO_eq_cons fu k v t [] h
    exact absurd hc (by simp)

theorem dumpsIO_some_nil (fu d : Nat) (o : List (List Nat × Json))
    (h : dumpsIO fu d o = some []) : o = [] := by
  cases o with
  | nil => rfl
  | cons p t =>
    obtain ⟨k, v⟩ := p
    obtain ⟨fu2, x, xs, -, -, -, -, hc⟩ := dumpsIO_eq_cons fu d k v t [] h
    exact absurd hc (by simp)

theorem valHead_wsb (c : Nat) (h : valHead c) : isWsB c = false :=
  (valHead_facts c h).1

theorem indentB_length (d : Nat) : (indentB d).length = 2 * d := by
  simp [indentB]

theorem skipWs_nl (r : List Nat) : skipWs (10 :: r) = skipWs r := by
  simp [skipWs, isWsB]

theorem skipWs_91 (r : List Nat) : skipWs (91 :: r) = 91 :: r := skipWs_not_ws 91 r rfl

theorem skipWs_123 (r : List Nat) : skipWs (123 :: r) = 123 :: r := skipWs_not_ws 123 r rfl

theorem valHead_ne (c : Nat) (h : valHead c) : c ≠ 93 ∧ c ≠ 125 := by
  have h93 := (valHead_facts c h).2.1
  have h125 := (valHead_facts c h).2.2
  rw [beq_eq_false_iff_ne] at h93 h125
  exact ⟨h93, h125⟩

/-- Main round-trip statement: any value either dumps style serializes is
recovered exactly by the parser, with the trailing input untouched. -/
theorem rt_main (n : Nat) : ∀ (j : Json) (s : List Nat), s.length ≤ n → SerOf j s →
    ParsesAs j s := by
  induction n using Nat.strong_induction_on with
  | _ n IH =>
    intro j s hn hser
    refine ⟨serOf_len_pos j s hser, ?_⟩
    intro pfu ws rest hws hrest hfu
    have hpos : 1 ≤ s.length := serOf_len_pos j s hser
    obtain ⟨q, rfl⟩ : ∃ q, pfu = q + 1 := ⟨pfu - 1, by omega⟩
    cases j with
    | jnull =>
      rw [serOf_null s hser]
      simp [parseVal, skipWs_ws_append, hws, skipWs_not_ws, isWsB]
    | jbool b =>
      rw [serOf_bool b s hser]
      cases b <;>
        simp [parseVal, skipWs_ws_append, hws, skipWs_not_ws, isWsB]
    | jnum m =>
      rw [serOf_num m s hser]
      match m with
      | .ofNat k =>
        obtain ⟨c, ds, hnd, hcdig⟩ := natDigs_head k
        have hbounds : 48 ≤ c ∧ c ≤ 57 := by
          simpa [isDigit] using hcdig
        have hall : ds.all isDigit = true := by
          have hd := natDigs_digits k
          rw [hnd] at hd
          simp only [List.all_cons, Bool.and_eq_true] at hd
          exact hd.2
        have hwsb : isWsB c = false := by
          simp only [isWsB, Bool.or_eq_false_iff, beq_eq_false_iff_ne]
          omega
        have h110 : (c == 110) = false := beq_eq_false_iff_ne.mpr (by omega)
        have h116 : (c == 116) = false := beq_eq_false_iff_ne.mpr (by omega)
        have h102 : (c == 102) = false := beq_eq_false_iff_ne.mpr (by omega)
        have h34 : (c == 34) = false := beq_eq_false_iff_ne.mpr (by omega)
        have h91 : (c == 91) = false := beq_eq_false_iff_ne.mpr (by omega)
        have h123 : (c == 123) = false := beq_eq_false_iff_ne.mpr (by omega)
        have h45 : (c == 45) = false := beq_eq_false_iff_ne.mpr (by omega)
        have hds := digSpan_append ds rest hall hrest
        rw [show intDigs (Int.ofNat k) = natDigs k from rfl, hnd]
        simp [parseVal, skipWs_ws_append, hws, skipWs_not_ws, hwsb, h110, h116,
          h102, h34, h91, h123, h45, hcdig, hds]
        rw [← hnd, digsVal_natDigs]
      | .negSucc k =>
        obtain ⟨c, ds, hnd, hcdig⟩ := natDigs_head (k + 1)
        have hds := digSpan_append (natDigs (k + 1)) rest (natDigs_digits (k + 1)) hrest
        rw [hnd] at hds
        simp only [List.cons_append] at hds
        rw [show intDigs (Int.negSucc k) = 45 :: natDigs (k + 1) from rfl, hnd]
        simp [parseVal, skipWs_ws_append, hws, skipWs_not_ws, isWsB, hds]
        rw [← hnd, digsVal_natDigs, Int.negSucc_eq]
        push_cast
        ring
    | jstr t =>
      obtain ⟨hclean, hs⟩ := serOf_str t s hser
      rw [hs]
      have hstr := strSpan_append t rest hclean
      simp [parseVal, skipWs_ws_append, hws, skipWs_not_ws, isWsB, hstr]
    | jarr l =>
      rcases serOf_arr l s hser with ⟨fu, items, hL, hs⟩ | ⟨fu, d, items, hL, hs⟩
      · cases l with
        | nil =>
          rw [dumpsL_eq_nil fu items hL] at hs
          rw [hs]
          simp [renderArrC, parseVal, skipWs_ws_append, hws, skipWs_not_ws, isWsB]
        | cons j1 lt =>
          obtain ⟨fu2, x, xs, rfl, hx0, hxs0, rfl⟩ := dumpsL_eq_cons fu j1 lt items hL
          obtain ⟨c, xr, rfl, hvh⟩ := serOf_head j1 x (Or.inl ⟨fu2, hx0⟩)
          have hjl : s.length = (joinSep [44, 32] ((c :: xr) :: xs)).length + 2 := by
            rw [hs]
            simp [renderArrC]
          have hF : List.Forall₂ ParsesAs (j1 :: lt) ((c :: xr) :: xs) := by
            refine dumpsL_forall2 _ _ _ hL ?_
            intro j2 x2 hs2 hmem
            refine IH x2.length ?_ j2 x2 le_rfl hs2
            have := mem_joinSep_le [44, 32] _ x2 hmem
            omega
          have hjoin := parseItems_join [32] rfl (j1 :: lt) ((c :: xr) :: xs) hF
            (by simp) q [] [] rest rfl rfl (by omega)
          obtain ⟨jr, hjr⟩ := joinSep_cons_ex [44, 32] (c :: xr) xs
          rw [hjr] at hjoin
          simp only [List.nil_append, List.cons_append, List.append_assoc] at hjoin
          rw [hs]
          have hwsb := valHead_wsb c hvh
          have h93 := (valHead_facts c hvh).2.1
          have hne93 := (valHead_ne c hvh).1
          simp [renderArrC, hjr, parseVal, skipWs_ws_append, hws, skipWs_not_ws,
            skipWs_91, hwsb, h93, hne93, hjoin]
      · cases l with
        | nil =>
          rw [dumpsIL_eq_nil fu (d + 1) items hL] at hs
          rw [hs]
          simp [renderArrI, parseVal, skipWs_ws_append, hws, skipWs_not_ws, isWsB]
        | cons j1 lt =>
          obtain ⟨fu2, x, xs, rfl, hx0, hxs0, rfl⟩ :=
            dumpsIL_eq_cons fu (d + 1) j1 lt items hL
          obtain ⟨c, xr, rfl, hvh⟩ := serOf_head j1 x (Or.inr ⟨fu2, d + 1, hx0⟩)
          have hjl : s.length =
              (joinSep (44 :: 10 :: indentB (d + 1)) ((c :: xr) :: xs)).length +
              (2 * (d + 1)) + (2 * d) + 4 := by
            rw [hs]
            simp [renderArrI, indentB_length]
            omega
          have hF : List.Forall₂ ParsesAs (j1 :: lt) ((c :: xr) :: xs) := by
            refine dumpsIL_forall2 _ _ (d + 1) _ hL ?_
            intro j2 x2 hs2 hmem
            refine IH x2.length ?_ j2 x2 le_rfl hs2
            have := mem_joinSep_le (44 :: 10 :: indentB (d + 1)) _ x2 hmem
            omega
          have hjoin := parseItems_join (10 :: indentB (d + 1)) (wsList_nl_indent (d + 1))
            (j1 :: lt) ((c :: xr) :: xs) hF (by simp) q []
            (10 :: indentB d) rest rfl (wsList_nl_indent d)
            (by omega)
          obtain ⟨jr, hjr⟩ := joinSep_cons_ex (44 :: 10 :: indentB (d + 1)) (c :: xr) xs
          rw [hjr] at hjoin
          simp only [List.nil_append, List.cons_append, List.append_assoc] at hjoin
          rw [hs]
          have hwsb := valHead_wsb c hvh
          have h93 := (valHead_facts c hvh).2.1
          have hne93 := (valHead_ne c hvh).1
          simp [renderArrI, hjr, parseVal, skipWs_ws_append, hws, skipWs_not_ws,
            skipWs_91, hwsb, h93, hne93, skipWs_nl, wsList_indentB, hjoin]
    | jobj o =>
      rcases serOf_obj o s hser with ⟨fu, fields, hO, hs⟩ | ⟨fu, d, fields, hO, hs⟩
      · cases o with
        | nil =>
          rw [dumpsO_eq_nil fu fields hO] at hs
          rw [hs]
          simp [renderObjC, parseVal, skipWs_ws_append, hws, skipWs_not_ws, isWsB]
        | cons p ot =>
          obtain ⟨k1, v1⟩ := p
          obtain ⟨fu2, x, xs, rfl, hk1, hx0, hxs0, rfl⟩ :=
            dumpsO_eq_cons fu k1 v1 ot fields hO
          have hjl : s.length =
              (joinSep [44, 32] (renderKeyC k1 x :: xs)).length + 2 := by
            rw [hs]
            simp [renderObjC]
          have hF : List.Forall₂
              (fun p f => ∃ x, f = renderKeyC p.1 x ∧ cleanStr p.1 = true ∧
                ParsesAs p.2 x)
              ((k1, v1) :: ot) (renderKeyC k1 x :: xs) := by
            refine dumpsO_forall2 _ _ _ hO ?_
            intro j2 x2 k2 hs2 hmem
            refine IH x2.length ?_ j2 x2 le_rfl hs2
            have h1 := mem_joinSep_le [44, 32] _ (renderKeyC k2 x2) hmem
            have h2 : x2.length ≤ (renderKeyC k2 x2).length := by
              simp [renderKeyC]
              omega
            omega
          have hjoin := parseFields_join [32] rfl ((k1, v1) :: ot)
            (renderKeyC k1 x :: xs) hF (by simp) q [] [] rest rfl rfl (by omega)
          obtain ⟨jr, hjr⟩ := joinSep_cons_ex [44, 32] (renderKeyC k1 x) xs
          rw [hjr] at hjoin
          simp only [List.nil_append, List.cons_append, List.append_assoc,
            renderKeyC] at hjoin
          simp only [renderKeyC, List.cons_append, List.append_assoc,
            List.nil_append] at hjr
          rw [hs]
          simp [renderObjC, renderKeyC, hjr, parseVal, skipWs_ws_append, hws,
            skipWs_not_ws, isWsB, hjoin]
      · cases o with
        | nil =>
          rw [dumpsIO_eq_nil fu (d + 1) fields hO] at hs
          rw [hs]
          simp [renderObjI, parseVal, skipWs_ws_append, hws, skipWs_not_ws, isWsB]
        | cons p ot =>
          obtain ⟨k1, v1⟩ := p
          obtain ⟨fu2, x, xs, rfl, hk1, hx0, hxs0, rfl⟩ :=
            dumpsIO_eq_cons fu (d + 1) k1 v1 ot fields hO
          have hjl : s.length =
              (joinSep (44 :: 10 :: indentB (d + 1)) (renderKeyC k1 x :: xs)).length +
              (2 * (d + 1)) + (2 * d) + 4 := by
            rw [hs]
            simp [renderObjI, indentB_length]
            omega
          have hF : List.Forall₂
              (fun p f => ∃ x, f = renderKeyC p.1 x ∧ cleanStr p.1 = true ∧
                ParsesAs p.2 x)
              ((k1, v1) :: ot) (renderKeyC k1 x :: xs) := by
            refine dumpsIO_forall2 _ _ (d + 1) _ hO ?_
            intro j2 x2 k2 hs2 hmem
            refine IH x2.length ?_ j2 x2 le_rfl hs2
            have h1 := mem_joinSep_le (44 :: 10 :: indentB (d + 1)) _
              (renderKeyC k2 x2) hmem
            have h2 : x2.length ≤ (renderKeyC k2 x2).length := by
              simp [renderKeyC]
              omega
            omega
          have hjoin := parseFields_join (10 :: indentB (d + 1))
            (wsList_nl_indent (d + 1)) ((k1, v1) :: ot) (renderKeyC k1 x :: xs) hF
            (by simp) q [] (10 :: indentB d) rest
            rfl (wsList_nl_indent d) (by omega)
          obtain ⟨jr, hjr⟩ := joinSep_cons_ex (44 :: 10 :: indentB (d + 1))
            (renderKeyC k1 x) xs
          rw [hjr] at hjoin
          simp only [List.nil_append, List.cons_append, List.append_assoc,
            renderKeyC] at hjoin
          simp only [renderKeyC, List.cons_append, List.append_assoc,
            List.nil_append] at hjr
          rw [hs]
          simp [renderObjI, renderKeyC, hjr, parseVal, skipWs_ws_append, hws,
            skipWs_not_ws, isWsB, skipWs_nl, wsList_indentB, hjoin]

/-- Serializing with json.dumps and loading back returns the value. -/
theorem loads_dumps (j : Json) (s : List Nat) (h : dumps j = some s) :
    loads s = some j := by
  have hp := (rt_main s.length j s le_rfl (Or.inl ⟨JFUEL, h⟩)).2 (s.length + 1) [] []
    rfl rfl (by omega)
  simp only [List.nil_append, List.append_nil] at hp
  simp [loads, hp, skipWs]

/-- Serializing with json.dumps at indent=2 and loading back returns the
value. -/
theorem loads_dumpsInd (j : Json) (s : List Nat) (h : dumpsInd j = some s) :
    loads s = some j := by
  have hp := (rt_main s.length j s le_rfl (Or.inr ⟨JFUEL, 0, h⟩)).2 (s.length + 1) [] []
    rfl rfl (by omega)
  simp only [List.nil_append, List.append_nil] at hp
  simp [loads, hp, skipWs]

/-! Field lookups on the block metadata record. -/

theorem jget_bh_name (name : List Nat) (v : PyValue) (comp : List Nat) (ulen : Nat) :
    jget (blockHeaderJson name v comp ulen) (str2b "name") = some (.jstr name) := rfl

theorem jget_bh_type (name : List Nat) (v : PyValue) (comp : List Nat) (ulen : Nat) :
    jget (blockHeaderJson name v comp ulen) (str2b "type") = some (.jstr (typeTag v)) := rfl

theorem jget_bh_dtype (name : List Nat) (v : PyValue) (comp : List Nat) (ulen : Nat) :
    jget (blockHeaderJson name v comp ulen) (str2b "dtype") = some (dtypeField v) := rfl

theorem jget_bh_shape (name : List Nat) (v : PyValue) (comp : List Nat) (ulen : Nat) :
    jget (blockHeaderJson name v comp ulen) (str2b "shape") = some (shapeField v) := rfl

theorem jget_bh_cs (name : List Nat) (v : PyValue) (comp : List Nat) (ulen : Nat) :
    jget (blockHeaderJson name v comp ulen) (str2b "compressed_size") =
      some (.jnum comp.length) := rfl

theorem jget_bh_ck (name : List Nat) (v : PyValue) (comp : List Nat) (ulen : Nat) :
    jget (blockHeaderJson name v comp ulen) (str2b "checksum") =
      some (.jstr (md5hex comp)) := rfl

theorem dtypeSize_pos (s : List Nat) (k : Nat) (h : dtypeSize s = some k) : 0 < k := by
  unfold dtypeSize at h
  repeat' split at h
  all_goals simp_all <;> omega

theorem shapeList_map (sh : List Nat) :
    shapeList (sh.map fun n => Json.jnum (Int.ofNat n)) = some sh := by
  induction sh with
  | nil => rfl
  | cons a t ih =>
    simp only [List.map_cons, shapeList]
    rw [if_pos (by simp [Int.ofNat_eq_coe]), ih]
    simp

/-- The per-type decode of read_package inverts the per-type encode of
_write_data_block on wellformed payloads. -/
theorem decodePayload_enc (v : PyValue) (db : List Nat) (hdb : dataBytesOf v = some db)
    (hwf : pvWF v = true) (name comp : List Nat) (ulen : Nat) :
    decodePayload (.jstr (typeTag v)) (blockHeaderJson name v comp ulen) db = some v := by
  cases v with
  | npArray a =>
    simp only [dataBytesOf, Option.some.injEq] at hdb
    subst hdb
    simp only [pvWF, npWF] at hwf
    match hk : dtypeSize a.dtype with
    | none => rw [hk] at hwf; simp at hwf
    | some k =>
      rw [hk] at hwf
      have hlen : a.data.length = k * prodL a.shape := by simpa using hwf
      have hkpos : 0 < k := dtypeSize_pos a.dtype k hk
      have hmod : a.data.length % k = 0 := by
        rw [hlen]
        exact Nat.mul_mod_right k _
      have hdiv : a.data.length / k = prodL a.shape := by
        rw [hlen]
        exact Nat.mul_div_cancel_left _ hkpos
      simp only [decodePayload, typeTag, jget_bh_dtype, jget_bh_shape, dtypeField,
        shapeField, dtypeOfJson, hk, Option.map_some', if_pos rfl, hmod, hdiv,
        shapeList_map, shapeOfJson]
      simp
  | pybytes b =>
    simp only [dataBytesOf, Option.some.injEq] at hdb
    subst hdb
    rfl
  | pyjson j =>
    simp only [dataBytesOf] at hdb
    have : decodePayload (.jstr (typeTag (.pyjson j))) (blockHeaderJson name (.pyjson j) comp ulen) db =
        (loads db).map .pyjson := rfl
    rw [this, loads_dumps j db hdb]
    rfl

theorem encodeBlock_inv (name : List Nat) (v : PyValue) (e : BlockEnc)
    (h : encodeBlock name v = some e) :
    ∃ db, dataBytesOf v = some db ∧
      e = ⟨(dumps (blockHeaderJson name v (zcompress db) db.length)).getD [],
        zcompress db, db.length⟩ ∧
      dumps (blockHeaderJson name v (zcompress db) db.length) = some e.bh ∧
      e.bh.length < 4294967296 := by
  simp only [encodeBlock, Option.bind_eq_bind, Option.bind_eq_some, packU32] at h
  obtain ⟨db, hdb, bh, hbh, w, hw, heq⟩ := h
  have hlt : bh.length < 4294967296 := by
    by_cases hc : bh.length < 4294967296
    · exact hc
    · rw [if_neg hc] at hw
      exact absurd hw (by simp)
  have heq2 : e = ⟨bh, zcompress db, db.length⟩ := (Option.some.inj heq).symm
  subst heq2
  refine ⟨db, hdb, ?_, hbh, hlt⟩
  simp [hbh]

/-- One loop iteration of read_package decodes exactly the block
_write_data_block emitted, at any position and with any following bytes. -/
theorem parseBlockAt_enc (pre tail name : List Nat) (v : PyValue) (e : BlockEnc)
    (henc : encodeBlock name v = some e) (hsz : e.bh.length ≤ 100000)
    (hwf : pvWF v = true) :
    parseBlockAt (pre ++ (encBytes e ++ tail)) pre.length =
      some (.kstr name, v, pre.length + (encBytes e).length) := by
  obtain ⟨db, hdb, he, hbh, hlt⟩ := encodeBlock_inv name v e henc
  obtain ⟨bh, comp, ulen⟩ := e
  simp only [BlockEnc.mk.injEq] at he
  obtain ⟨hbh2, hcomp, hulen⟩ := he
  subst hcomp hulen
  simp only at hbh hsz hlt ⊢
  have hb4 : (pack32 bh.length).length = 4 := pack32_length _
  have hshape : pre ++ (encBytes ⟨bh, zcompress db, db.length⟩ ++ tail) =
      pre ++ (pack32 bh.length ++ (bh ++ (zcompress db ++ tail))) := by
    simp [encBytes]
  have h1 : readAt (pre ++ (encBytes ⟨bh, zcompress db, db.length⟩ ++ tail))
      pre.length 4 = pack32 bh.length := by
    rw [hshape]
    exact readAt_at pre _ _ _ _ rfl hb4.symm
  have h2 : readAt (pre ++ (encBytes ⟨bh, zcompress db, db.length⟩ ++ tail))
      (pre.length + 4) bh.length = bh := by
    rw [hshape, ← List.append_assoc]
    exact readAt_at (pre ++ pack32 bh.length) _ _ _ _
      (by simp [pack32_length]) rfl
  have h3 : readAt (pre ++ (encBytes ⟨bh, zcompress db, db.length⟩ ++ tail))
      (pre.length + 4 + bh.length) (zcompress db).length = zcompress db := by
    rw [hshape, ← List.append_assoc, ← List.append_assoc]
    exact readAt_at (pre ++ pack32 bh.length ++ bh) _ _ _ _
      (by simp [pack32_length]; omega) rfl
  have hblen : (pre ++ (encBytes ⟨bh, zcompress db, db.length⟩ ++ tail)).length =
      pre.length + 4 + bh.length + (zcompress db).length + tail.length := by
    simp [encBytes, pack32_length]
    omega
  have hth : ¬ (100000 < bh.length) := by omega
  have hloads : loads bh = some (blockHeaderJson name v (zcompress db) db.length) :=
    loads_dumps _ bh hbh
  have hmin : min ((zcompress db).length)
      ((pre ++ (encBytes ⟨bh, zcompress db, db.length⟩ ++ tail)).length -
        (pre.length + 4 + bh.length)) = (zcompress db).length := by
    rw [hblen]
    omega
  have hcast : ¬ ((((zcompress db).length : Int)) < 0) := by omega
  simp only [parseBlockAt, h1, hb4, leU32_pack32 _ hlt, lt_irrefl, if_false, hth,
    h2, hloads, jget_bh_cs, jget_bh_ck, jget_bh_type, jget_bh_name, pyReadCount,
    Option.bind_eq_bind, Option.some_bind, hcast, Int.toNat_natCast, hmin, h3,
    ckMatches, beq_self_eq_true, zdecompress_zcompress,
    decodePayload_enc v db hdb hwf name (zcompress db) db.length, toKey]
  simp [encBytes, pack32_length]
  omega

theorem blocksWF_cons (n : List Nat) (v : PyValue) (bs : List (List Nat × PyValue))
    (h : blocksWF ((n, v) :: bs) = true) :
    ∃ e, encodeBlock n v = some e ∧ e.bh.length ≤ 100000 ∧ pvWF v = true ∧
      blocksWF bs = true := by
  simp only [blocksWF, Bool.and_eq_true] at h
  obtain ⟨h1, h2⟩ := h
  match he : encodeBlock n v with
  | none => rw [he] at h1; simp at h1
  | some e =>
    rw [he] at h1
    simp only [Bool.and_eq_true, decide_eq_true_eq] at h1
    exact ⟨e, rfl, h1.1, h1.2, h2⟩

theorem blocksBytesSpec_cons (n : List Nat) (v : PyValue)
    (bs : List (List Nat × PyValue)) (tb : List Nat) (e : BlockEnc)
    (henc : encodeBlock n v = some e)
    (h : blocksBytesSpec ((n, v) :: bs) = some tb) :
    ∃ tb2, blocksBytesSpec bs = some tb2 ∧ tb = encBytes e ++ tb2 := by
  simp only [blocksBytesSpec, henc, Option.bind_eq_bind, Option.some_bind,
    Option.bind_eq_some] at h
  obtain ⟨tb2, h1, h2⟩ := h
  exact ⟨tb2, h1, by simpa using h2.symm⟩

theorem blocksBytesSpec_nil_inv (tb : List Nat) (h : blocksBytesSpec [] = some tb) :
    tb = [] := by
  simpa [blocksBytesSpec] using h.symm

theorem encBytes_len (e : BlockEnc) :
    (encBytes e).length = 4 + e.bh.length + e.comp.length := by
  simp [encBytes, pack32_length]
  omega

/-- The block-scan loop applied to the byte region the writer emitted for a
block list stores exactly those blocks in order, then stops at whatever
follows, provided the first candidate after the region stops the loop. -/
theorem scan_blocks : ∀ (bs : List (List Nat × PyValue)) (tb pre t : List Nat)
    (acc : List (BKey × PyValue)) (fu : Nat),
    blocksBytesSpec bs = some tb →
    blocksWF bs = true →
    32 ≤ t.length →
    bs.length + 1 ≤ fu →
    (¬ (pre.length + tb.length < (pre ++ (tb ++ t)).length - 32) ∨
      parseBlockAt (pre ++ (tb ++ t)) (pre.length + tb.length) = none) →
    scan fu (pre ++ (tb ++ t)) pre.length acc =
      bs.foldl (fun a p => bSet a (.kstr p.1) p.2) acc := by
  intro bs
  induction bs with
  | nil =>
    intro tb pre t acc fu hspec hwf ht hfu hstop
    have htb : tb = [] := blocksBytesSpec_nil_inv tb hspec
    subst htb
    obtain ⟨f2, rfl⟩ : ∃ f2, fu = f2 + 1 := ⟨fu - 1, by omega⟩
    simp only [List.nil_append, List.append_nil, Nat.add_zero, List.length_nil] at hstop ⊢
    simp only [List.foldl_nil]
    rcases hstop with hlt | hpb
    · have hlt2 : ¬ pre.length < pre.length + t.length - 32 := by
        simpa [List.length_append] using hlt
      simp [scan, hlt2]
    · simp [scan, hpb]
  | cons p bs ih =>
    obtain ⟨n, v⟩ := p
    intro tb pre t acc fu hspec hwf ht hfu hstop
    obtain ⟨e, henc, hsz, hpv, hwft⟩ := blocksWF_cons n v bs hwf
    obtain ⟨tb2, hspec2, rfl⟩ := blocksBytesSpec_cons n v bs tb e henc hspec
    obtain ⟨f2, rfl⟩ : ∃ f2, fu = f2 + 1 := ⟨fu - 1, by omega⟩
    have h4 : 4 ≤ (encBytes e).length := by
      rw [encBytes_len]
      omega
    have hcond : pre.length < (pre ++ ((encBytes e ++ tb2) ++ t)).length - 32 := by
      simp only [List.length_append]
      omega
    have hpar := parseBlockAt_enc pre (tb2 ++ t) n v e henc hsz hpv
    have hrec := ih tb2 (pre ++ encBytes e) t (bSet acc (.kstr n) v) f2 hspec2 hwft ht
      (by simp only [List.length_cons] at hfu; omega) ?_
    · have hplen : (pre ++ encBytes e).length = pre.length + (encBytes e).length := by
        simp
      simp only [List.append_assoc] at hcond hpar hrec ⊢
      simp only [scan]
      rw [if_pos hcond]
      simp only [hpar]
      rw [hplen] at hrec
      rw [hrec]
      simp
    · have hplen : (pre ++ encBytes e).length = pre.length + (encBytes e).length := by
        simp
      have hpos : (pre ++ encBytes e).length + tb2.length =
          pre.length + ((encBytes e ++ tb2).length) := by
        simp only [List.length_append, hplen]
        omega
      have hbytes : (pre ++ encBytes e) ++ (tb2 ++ t) = pre ++ ((encBytes e ++ tb2) ++ t) := by
        simp [List.append_assoc]
      rw [hbytes, hpos]
      exact hstop

theorem packU32_inv (n : Nat) (b : List Nat) (h : packU32 n = some b) :
    b = pack32 n ∧ n < 4294967296 := by
  by_cases hn : n < 4294967296
  · simp only [packU32, if_pos hn, Option.some.injEq] at h
    exact ⟨h.symm, hn⟩
  · simp [packU32, hn] at h

theorem objSet_look_ne (l : List (List Nat × Json)) (k k2 : List Nat) (v : Json)
    (h : k2 ≠ k) : jlook (objSet l k v) k2 = jlook l k2 := by
  induction l with
  | nil => simp [objSet, jlook, Ne.symm h]
  | cons p t ih =>
    obtain ⟨k1, v1⟩ := p
    by_cases hk : k1 = k
    · subst hk
      simp [objSet, jlook, Ne.symm h]
    · simp only [objSet, if_neg hk, jlook, ih]

theorem writeBlocksAux_bytes : ∀ (bs : List (List Nat × PyValue)) (off : Nat)
    (accB : List Nat) (accI : List (List Nat × Json)) (B : List Nat)
    (I : List (List Nat × Json)),
    writeBlocksAux bs off accB accI = some (B, I) →
    ∃ tb, blocksBytesSpec bs = some tb ∧ B = accB ++ tb := by
  intro bs
  induction bs with
  | nil =>
    intro off accB accI B I h
    simp only [writeBlocksAux, Option.some.injEq, Prod.mk.injEq] at h
    exact ⟨[], rfl, by simp [h.1]⟩
  | cons p t ih =>
    obtain ⟨n, v⟩ := p
    intro off accB accI B I h
    simp only [writeBlocksAux, Option.bind_eq_bind, Option.bind_eq_some] at h
    obtain ⟨e, henc, hrec⟩ := h
    obtain ⟨tb2, hspec, hB⟩ := ih _ _ _ _ _ hrec
    refine ⟨encBytes e ++ tb2, ?_, ?_⟩
    · simp [blocksBytesSpec, henc, hspec]
    · simp [hB, List.append_assoc]

theorem writeBlocksAux_look : ∀ (bs : List (List Nat × PyValue)) (off : Nat)
    (accB : List Nat) (accI : List (List Nat × Json)) (B : List Nat)
    (I : List (List Nat × Json)) (k : List Nat),
    writeBlocksAux bs off accB accI = some (B, I) →
    jlook accI k = none →
    (∀ p ∈ bs, p.1 ≠ k) →
    jlook I k = none := by
  intro bs
  induction bs with
  | nil =>
    intro off accB accI B I k h hacc _
    simp only [writeBlocksAux, Option.some.injEq, Prod.mk.injEq] at h
    rw [← h.2]
    exact hacc
  | cons p t ih =>
    obtain ⟨n, v⟩ := p
    intro off accB accI B I k h hacc hnames
    simp only [writeBlocksAux, Option.bind_eq_bind, Option.bind_eq_some] at h
    obtain ⟨e, henc, hrec⟩ := h
    refine ih _ _ _ _ _ _ hrec ?_ ?_
    · rw [objSet_look_ne _ _ _ _ ?_]
      · exact hacc
      · have := hnames (n, v) (List.mem_cons_self _ _)
        simpa [eq_comm] using this
    · intro p hp
      exact hnames p (List.mem_cons_of_mem _ hp)

theorem blocksBytesSpec_len : ∀ (bs : List (List Nat × PyValue)) (tb : List Nat),
    blocksBytesSpec bs = some tb → bs.length ≤ tb.length := by
  intro bs
  induction bs with
  | nil =>
    intro tb h
    exact Nat.zero_le _
  | cons p t ih =>
    obtain ⟨n, v⟩ := p
    intro tb h
    simp only [blocksBytesSpec, Option.bind_eq_bind, Option.bind_eq_some] at h
    obtain ⟨e, henc, tb2, hspec, heq⟩ := h
    have := ih tb2 hspec
    have h4 : 4 ≤ (encBytes e).length := by
      rw [encBytes_len]
      omega
    have heq2 : encBytes e ++ tb2 = tb := Option.some.inj heq
    subst heq2
    simp only [List.length_append, List.length_cons]
    omega

theorem pkgBlocks_name_head (args : PkgArgs) (p : List Nat × PyValue)
    (hp : p ∈ pkgBlocks args) : p.1.head? ≠ some 99 := by
  simp only [pkgBlocks, List.mem_append] at hp
  rcases hp with ((((((h | h) | h) | h) | h) | h) | h)
  · match hs : args.heightmap with
    | none => rw [hs] at h; simp at h
    | some a =>
      rw [hs] at h
      simp only [List.mem_singleton] at h
      subst h
      intro hc
      exact absurd (show (str2b "heightmap").head? = some 99 from hc) (by decide)
  · match hs : args.satellite with
    | none => rw [hs] at h; simp at h
    | some b =>
      rw [hs] at h
      simp only [List.mem_singleton] at h
      subst h
      intro hc
      exact absurd (show (str2b "satellite").head? = some 99 from hc) (by decide)
  · match hs : args.materials with
    | none => rw [hs] at h; simp at h
    | some ms =>
      rw [hs] at h
      simp only [List.mem_map] at h
      obtain ⟨q, _, hq⟩ := h
      rw [← hq]
      intro hc
      have hc2 : some 109 = some 99 := hc
      simp at hc2
  · match hs : args.osm_data with
    | none => rw [hs] at h; simp at h
    | some j =>
      rw [hs] at h
      simp only [List.mem_singleton] at h
      subst h
      intro hc
      exact absurd (show (str2b "osm_data").head? = some 99 from hc) (by decide)
  · match hs : args.vegetation with
    | none => rw [hs] at h; simp at h
    | some j =>
      rw [hs] at h
      simp only [List.mem_singleton] at h
      subst h
      intro hc
      exact absurd (show (str2b "vegetation").head? = some 99 from hc) (by decide)
  · match hs : args.tactical with
    | none => rw [hs] at h; simp at h
    | some j =>
      rw [hs] at h
      simp only [List.mem_singleton] at h
      subst h
      intro hc
      exact absurd (show (str2b "tactical").head? = some 99 from hc) (by decide)
  · match hs : args.profile_config with
    | none => rw [hs] at h; simp at h
    | some j =>
      rw [hs] at h
      simp only [List.mem_singleton] at h
      subst h
      intro hc
      exact absurd (show (str2b "profile").head? = some 99 from hc) (by decide)

theorem pkgBlocks_ne_cs (args : PkgArgs) (p : List Nat × PyValue)
    (hp : p ∈ pkgBlocks args) : p.1 ≠ str2b "compressed_size" := by
  intro he
  have hh := pkgBlocks_name_head args p hp
  rw [he] at hh
  exact hh rfl

/-- Reading back the byte stream the writer emits through the index, followed
by any 32 trailing bytes standing where the digest field belongs, recovers
the written header and exactly the written blocks: the full writer to reader
round trip over the body bytes. -/
theorem read_body (args : PkgArgs) (body t : List Nat) (hd : Json)
    (hbody : pkgBody args = some body)
    (hhd : createHeader args = some hd)
    (hwf : blocksWF (pkgBlocks args) = true)
    (ht : t.length = 32) :
    read_package (body ++ t) = .ok ⟨hd, pkgMap (pkgBlocks args)⟩ := by
  simp only [pkgBody, hhd, Option.bind_eq_bind, Option.some_bind,
    Option.bind_eq_some] at hbody
  obtain ⟨hb0, hdump, hlen0, hpl, vb0, hpv, ⟨blocksB, idx⟩, hwb, ib0, hdumpib,
    il0, hpil, hpure⟩ := hbody
  obtain ⟨hlen0e, hblen⟩ := packU32_inv _ _ hpl
  obtain ⟨vb0e, _⟩ := packU32_inv _ _ hpv
  obtain ⟨il0e, hilen⟩ := packU32_inv _ _ hpil
  subst hlen0e vb0e il0e
  have hbodye : body = MAGICB ++ pack32 VERSION ++ pack32 hb0.length ++ hb0 ++
      blocksB ++ pack32 ib0.length ++ ib0 := (Option.some.inj hpure).symm
  subst hbodye
  obtain ⟨tb, hspec, hBeq⟩ := writeBlocksAux_bytes _ _ _ _ _ _ hwb
  simp only [List.nil_append] at hBeq
  subst hBeq
  have hM : MAGICB.length = 4 := rfl
  have hlookcs : jlook idx (str2b "compressed_size") = none :=
    writeBlocksAux_look _ _ _ _ _ _ _ hwb rfl (fun p hp => pkgBlocks_ne_cs args p hp)
  have hload : loads hb0 = some hd := loads_dumpsInd hd hb0 hdump
  have hloadib : loads ib0 = some (.jobj idx) := loads_dumps _ _ hdumpib
  have hbslen := blocksBytesSpec_len _ _ hspec
  simp only [List.append_assoc]
  have htake : ∀ r : List Nat, (MAGICB ++ r).take 4 = MAGICB :=
    fun r => List.take_left MAGICB r
  have hv : ∀ r : List Nat, readAt (MAGICB ++ (pack32 VERSION ++ r)) 4 4 =
      pack32 VERSION := fun r => readAt_at MAGICB (pack32 VERSION) r 4 4 rfl rfl
  have h8 : ∀ r : List Nat,
      readAt (MAGICB ++ (pack32 VERSION ++ (pack32 hb0.length ++ r))) 8 4 =
      pack32 hb0.length := by
    intro r
    have := readAt_at (MAGICB ++ pack32 VERSION) (pack32 hb0.length) r 8 4 rfl rfl
    simpa [List.append_assoc] using this
  have h12 : ∀ r : List Nat,
      readAt (MAGICB ++ (pack32 VERSION ++ (pack32 hb0.length ++ (hb0 ++ r)))) 12
        hb0.length = hb0 := by
    intro r
    have := readAt_at (MAGICB ++ pack32 VERSION ++ pack32 hb0.length) hb0 r 12
      hb0.length (by simp [hM, pack32_length]) rfl
    simpa [List.append_assoc] using this
  simp only [read_package]
  rw [htake]
  rw [if_neg (by simp)]
  rw [hv]
  rw [if_neg (by simp [pack32_length])]
  rw [leU32_pack32 VERSION (by norm_num [VERSION])]
  rw [if_neg (by simp)]
  rw [h8]
  rw [if_neg (by simp [pack32_length])]
  rw [leU32_pack32 hb0.length hblen]
  rw [h12]
  simp only [hload]
  refine congrArg Except.ok ?_
  refine congrArg (Pkg.mk hd) ?_
  have hstop : parseBlockAt
      ((MAGICB ++ (pack32 VERSION ++ (pack32 hb0.length ++ hb0))) ++
        (blocksB ++ (pack32 ib0.length ++ (ib0 ++ t))))
      ((MAGICB ++ (pack32 VERSION ++ (pack32 hb0.length ++ hb0))).length +
        blocksB.length) = none := by
    have hil : readAt
        ((MAGICB ++ (pack32 VERSION ++ (pack32 hb0.length ++ hb0))) ++
          (blocksB ++ (pack32 ib0.length ++ (ib0 ++ t))))
        ((MAGICB ++ (pack32 VERSION ++ (pack32 hb0.length ++ hb0))).length +
          blocksB.length) 4 = pack32 ib0.length := by
      have := readAt_at
        ((MAGICB ++ (pack32 VERSION ++ (pack32 hb0.length ++ hb0))) ++ blocksB)
        (pack32 ib0.length) (ib0 ++ t)
        ((MAGICB ++ (pack32 VERSION ++ (pack32 hb0.length ++ hb0))).length +
          blocksB.length) 4 (by simp; omega) rfl
      simpa [List.append_assoc] using this
    have hib : readAt
        ((MAGICB ++ (pack32 VERSION ++ (pack32 hb0.length ++ hb0))) ++
          (blocksB ++ (pack32 ib0.length ++ (ib0 ++ t))))
        ((MAGICB ++ (pack32 VERSION ++ (pack32 hb0.length ++ hb0))).length +
          blocksB.length + 4) ib0.length = ib0 := by
      have := readAt_at
        ((MAGICB ++ (pack32 VERSION ++ (pack32 hb0.length ++ hb0))) ++ blocksB ++
          pack32 ib0.length) ib0 t
        ((MAGICB ++ (pack32 VERSION ++ (pack32 hb0.length ++ hb0))).length +
          blocksB.length + 4) ib0.length (by simp [pack32_length]; omega) rfl
      simpa [List.append_assoc] using this
    simp only [parseBlockAt]
    rw [hil]
    rw [if_neg (by simp [pack32_length])]
    rw [leU32_pack32 ib0.length hilen]
    by_cases hbig : 100000 < ib0.length
    · rw [if_pos hbig]
    · rw [if_neg hbig]
      rw [hib]
      simp only [hloadib, jget, hlookcs, Option.none_bind]
  have hscan := scan_blocks (pkgBlocks args) blocksB
    (MAGICB ++ (pack32 VERSION ++ (pack32 hb0.length ++ hb0)))
    (pack32 ib0.length ++ (ib0 ++ t)) []
    ((MAGICB ++ (pack32 VERSION ++ (pack32 hb0.length ++ hb0 ++ (blocksB ++
      (pack32 ib0.length ++ (ib0 ++ t)))))).length)
    hspec hwf (by simp [pack32_length]; omega)
    (by simp [List.length_append, hM, pack32_length]; omega)
    (Or.inr hstop)
  have hpre : (MAGICB ++ (pack32 VERSION ++ (pack32 hb0.length ++ hb0))).length =
      12 + hb0.length := by
    simp [List.length_append, hM, pack32_length]
    omega
  rw [hpre] at hscan
  simp only [List.append_assoc] at hscan
  rw [hscan]
  rfl

theorem objSet_cons_eq (k1 : List Nat) (v1 : Json) (t : List (List Nat × Json))
    (k : List Nat) (v : Json) (h : k1 = k) :
    objSet ((k1, v1) :: t) k v = (k, v) :: t := by
  simp [objSet, h]

theorem objSet_cons_ne (k1 : List Nat) (v1 : Json) (t : List (List Nat × Json))
    (k : List Nat) (v : Json) (h : ¬ k1 = k) :
    objSet ((k1, v1) :: t) k v = (k1, v1) :: objSet t k v := by
  simp [objSet, h]

theorem jlook_not_mem : ∀ (l : List (List Nat × Json)) (k : List Nat),
    ¬ k ∈ l.map Prod.fst → jlook l k = none := by
  intro l
  induction l with
  | nil => intro k h; rfl
  | cons p t ih =>
    obtain ⟨k1, v1⟩ := p
    intro k h
    simp only [List.map_cons, List.mem_cons, not_or] at h
    obtain ⟨h1, h2⟩ := h
    simp only [jlook, ih k h2]
    rw [if_neg]
    intro he
    exact h1 he.symm

theorem objSet_keys_mem : ∀ (l : List (List Nat × Json)) (k : List Nat) (v : Json)
    (x : List Nat), x ∈ (objSet l k v).map Prod.fst → x ∈ l.map Prod.fst ∨ x = k := by
  intro l
  induction l with
  | nil =>
    intro k v x h
    simp [objSet] at h
    exact Or.inr h
  | cons p t ih =>
    obtain ⟨k1, v1⟩ := p
    intro k v x h
    by_cases hk : k1 = k
    · rw [objSet_cons_eq k1 v1 t k v hk] at h
      simp only [List.map_cons, List.mem_cons] at h ⊢
      tauto
    · rw [objSet_cons_ne k1 v1 t k v hk] at h
      simp only [List.map_cons, List.mem_cons] at h ⊢
      rcases h with h | h
      · tauto
      · rcases ih k v x h with h2 | h2 <;> tauto

theorem objSet_nodup (l : List (List Nat × Json)) (k : List Nat) (v : Json)
    (h : (l.map Prod.fst).Nodup) : ((objSet l k v).map Prod.fst).Nodup := by
  induction l with
  | nil => simp [objSet]
  | cons p t ih =>
    obtain ⟨k1, v1⟩ := p
    simp only [List.map_cons, List.nodup_cons] at h
    obtain ⟨h1, h2⟩ := h
    by_cases hk : k1 = k
    · rw [objSet_cons_eq k1 v1 t k v hk]
      simp only [List.map_cons, List.nodup_cons]
      subst hk
      exact ⟨h1, h2⟩
    · rw [objSet_cons_ne k1 v1 t k v hk]
      simp only [List.map_cons, List.nodup_cons]
      refine ⟨?_, ih h2⟩
      intro hmem
      rcases objSet_keys_mem t k v k1 hmem with h3 | h3
      · exact h1 h3
      · exact hk h3

theorem objSet_look_self (l : List (List Nat × Json)) (k : List Nat) (v : Json)
    (hnd : (l.map Prod.fst).Nodup) : jlook (objSet l k v) k = some v := by
  induction l with
  | nil => simp [objSet, jlook]
  | cons p t ih =>
    obtain ⟨k1, v1⟩ := p
    simp only [List.map_cons, List.nodup_cons] at hnd
    obtain ⟨h1, h2⟩ := hnd
    by_cases hk : k1 = k
    · rw [objSet_cons_eq k1 v1 t k v hk]
      subst hk
      simp only [jlook, jlook_not_mem t k1 h1, if_pos]
    · rw [objSet_cons_ne k1 v1 t k v hk]
      simp only [jlook, ih h2]

theorem jget_some_obj (h : Json) (k : List Nat) (y : Json) (hy : jget h k = some y) :
    ∃ l, h = Json.jobj l := by
  cases h with
  | jobj l => exact ⟨l, rfl⟩
  | jnull => simp [jget] at hy
  | jbool b => simp [jget] at hy
  | jnum n => simp [jget] at hy
  | jstr s => simp [jget] at hy
  | jarr a => simp [jget] at hy

theorem jget_hSet_ne (h : Json) (k1 k2 : List Nat) (x : Json) (hne : ¬ k2 = k1) :
    jget (hSet h k1 x) k2 = jget h k2 := by
  cases h with
  | jobj l => simp only [hSet, jget, objSet_look_ne l k1 k2 x hne]
  | jnull => rfl
  | jbool b => rfl
  | jnum n => rfl
  | jstr s => rfl
  | jarr a => rfl

theorem jget_hSet_self (l : List (List Nat × Json)) (k : List Nat) (x : Json)
    (hnd : (l.map Prod.fst).Nodup) :
    jget (hSet (Json.jobj l) k x) k = some x := by
  simp only [hSet, jget, objSet_look_self l k x hnd]

theorem hSetIn_ex (h : Json) (k1 k2 : List Nat) (v h2 : Json)
    (hs : hSetIn h k1 k2 v = some h2) :
    ∃ l, jget h k1 = some (.jobj l) ∧ h2 = hSet h k1 (.jobj (objSet l k2 v)) := by
  unfold hSetIn at hs
  match hg : jget h k1 with
  | none => rw [hg] at hs; simp at hs
  | some (.jobj l) =>
    rw [hg] at hs
    exact ⟨l, rfl, (Option.some.inj hs).symm⟩
  | some .jnull => rw [hg] at hs; simp at hs
  | some (.jbool b) => rw [hg] at hs; simp at hs
  | some (.jnum n) => rw [hg] at hs; simp at hs
  | some (.jstr s) => rw [hg] at hs; simp at hs
  | some (.jarr a) => rw [hg] at hs; simp at hs

theorem hAppendAt_ex (h : Json) (k : List Nat) (x h2 : Json)
    (hs : hAppendAt h k x = some h2) :
    ∃ l, jget h k = some (.jarr l) ∧ h2 = hSet h k (.jarr (l ++ [x])) := by
  unfold hAppendAt at hs
  match hg : jget h k with
  | none => rw [hg] at hs; simp at hs
  | some (.jarr l) =>
    rw [hg] at hs
    exact ⟨l, rfl, (Option.some.inj hs).symm⟩
  | some .jnull => rw [hg] at hs; simp at hs
  | some (.jbool b) => rw [hg] at hs; simp at hs
  | some (.jnum n) => rw [hg] at hs; simp at hs
  | some (.jstr s) => rw [hg] at hs; simp at hs
  | some (.jobj o) => rw [hg] at hs; simp at hs

theorem hSetIn_step (h h2 : Json) (k1 k2 : List Nat) (v : Json)
    (L : List (List Nat × Json)) (hs : hSetIn h k1 k2 v = some h2)
    (hL : h = .jobj L) (hnd : (L.map Prod.fst).Nodup) :
    ∃ L2, h2 = .jobj L2 ∧ (L2.map Prod.fst).Nodup ∧
      ∀ q, ¬ q = k1 → jget h2 q = jget h q := by
  obtain ⟨l, hg, he⟩ := hSetIn_ex h k1 k2 v h2 hs
  subst hL
  refine ⟨objSet L k1 (.jobj (objSet l k2 v)), by simp [he, hSet],
    objSet_nodup _ _ _ hnd, ?_⟩
  intro q hq
  rw [he]
  exact jget_hSet_ne _ _ _ _ hq

theorem hSetIn_self (h h2 : Json) (k1 k2 : List Nat) (v : Json)
    (L l : List (List Nat × Json)) (hs : hSetIn h k1 k2 v = some h2)
    (hL : h = .jobj L) (hnd : (L.map Prod.fst).Nodup)
    (hl : jget h k1 = some (.jobj l)) :
    jget h2 k1 = some (.jobj (objSet l k2 v)) := by
  obtain ⟨l0, hg, he⟩ := hSetIn_ex h k1 k2 v h2 hs
  rw [hg] at hl
  have : l0 = l := by
    have := Option.some.inj hl
    exact Json.jobj.inj this
  subst this hL
  rw [he]
  exact jget_hSet_self L k1 _ hnd

theorem hAppendAt_step (h h2 : Json) (k : List Nat) (x : Json)
    (L l : List (List Nat × Json)) (la : List Json)
    (hs : hAppendAt h k x = some h2) (hL : h = .jobj L)
    (hnd : (L.map Prod.fst).Nodup) (hl : jget h k = some (.jarr la)) :
    ∃ L2, h2 = .jobj L2 ∧ (L2.map Prod.fst).Nodup ∧
      jget h2 k = some (.jarr (la ++ [x])) ∧
      ∀ q, ¬ q = k → jget h2 q = jget h q := by
  obtain ⟨l0, hg, he⟩ := hAppendAt_ex h k x h2 hs
  rw [hg] at hl
  have hla : l0 = la := by
    have := Option.some.inj hl
    exact Json.jarr.inj this
  subst hL
  rw [hla] at he
  refine ⟨objSet L k (.jarr (la ++ [x])), by simp [he, hSet],
    objSet_nodup _ _ _ hnd, ?_, ?_⟩
  · rw [he]
    exact jget_hSet_self L k _ hnd
  · intro q hq
    rw [he]
    exact jget_hSet_ne _ _ _ _ hq

theorem hSet_step (L : List (List Nat × Json)) (k : List Nat) (x : Json)
    (hnd : (L.map Prod.fst).Nodup) :
    ∃ L2, hSet (.jobj L) k x = .jobj L2 ∧ (L2.map Prod.fst).Nodup ∧
      jget (hSet (.jobj L) k x) k = some x ∧
      ∀ q, ¬ q = k → jget (hSet (.jobj L) k x) q = jget (.jobj L) q := by
  refine ⟨objSet L k x, by simp [hSet], objSet_nodup _ _ _ hnd,
    jget_hSet_self L k x hnd, ?_⟩
  intro q hq
  exact jget_hSet_ne _ _ _ _ hq

theorem hAppendNames_shape : ∀ (ns : List (List Nat)) (h h2 : Json)
    (L : List (List Nat × Json)) (la : List Json),
    hAppendNames h ns = some h2 → h = .jobj L → (L.map Prod.fst).Nodup →
    jget h (str2b "data_blocks") = some (.jarr la) →
    ∃ L2, h2 = .jobj L2 ∧ (L2.map Prod.fst).Nodup ∧
      jget h2 (str2b "data_blocks") = some (.jarr (la ++ ns.map Json.jstr)) ∧
      ∀ q, ¬ q = str2b "data_blocks" → jget h2 q = jget h q := by
  intro ns
  induction ns with
  | nil =>
    intro h h2 L la hs hL hnd hla
    simp only [hAppendNames, Option.some.injEq] at hs
    subst hs
    exact ⟨L, hL, hnd, by simpa using hla, fun q _ => rfl⟩
  | cons n t ih =>
    intro h h2 L la hs hL hnd hla
    simp only [hAppendNames, Option.bind_eq_bind, Option.bind_eq_some] at hs
    obtain ⟨g1, hs1, hrec⟩ := hs
    obtain ⟨L1, hL1, hnd1, hdb1, hq1⟩ := hAppendAt_step h g1 _ _ L L la hs1 hL hnd hla
    obtain ⟨L2, hL2, hnd2, hdb2, hq2⟩ := ih g1 h2 L1 (la ++ [Json.jstr n]) hrec hL1 hnd1 hdb1
    refine ⟨L2, hL2, hnd2, by simpa [List.append_assoc] using hdb2, ?_⟩
    intro q hq
    rw [hq2 q hq, hq1 q hq]

theorem stageHeightmap_shape (hm : Option NpArr) (h h2 : Json)
    (L lc : List (List Nat × Json)) (ld : List Json)
    (hs : stageHeightmap hm h = some h2)
    (hL : h = .jobj L) (hnd : (L.map Prod.fst).Nodup)
    (hlc : jget h (str2b "content") = some (.jobj lc))
    (hprof : jlook lc (str2b "profile") = none)
    (hld : jget h (str2b "data_blocks") = some (.jarr ld)) :
    ∃ L2 lc2, h2 = .jobj L2 ∧ (L2.map Prod.fst).Nodup ∧
      jget h2 (str2b "content") = some (.jobj lc2) ∧
      jlook lc2 (str2b "profile") = none ∧
      jget h2 (str2b "data_blocks") = some (.jarr (ld ++
        segNames hm.isSome (str2b "heightmap"))) := by
  cases hm with
  | none =>
    simp only [stageHeightmap, Option.some.injEq] at hs
    subst hs
    exact ⟨L, lc, hL, hnd, hlc, hprof, by simpa [segNames, matNames] using hld⟩
  | some a =>
    simp only [stageHeightmap, Option.bind_eq_bind, Option.bind_eq_some] at hs
    obtain ⟨g1, hs1, g2, hs2, g3, hs3, g4, hs4, hs5⟩ := hs
    obtain ⟨L1, hL1, hnd1, hq1⟩ := hSetIn_step h g1 _ _ _ L hs1 hL hnd
    have hlc1 := (hq1 (str2b "content") (by decide)).trans hlc
    have hld1 := (hq1 (str2b "data_blocks") (by decide)).trans hld
    obtain ⟨L2x, hL2, hnd2, hq2⟩ := hSetIn_step g1 g2 _ _ _ L1 hs2 hL1 hnd1
    have hlc2 := (hq2 (str2b "content") (by decide)).trans hlc1
    have hld2 := (hq2 (str2b "data_blocks") (by decide)).trans hld1
    obtain ⟨L3, hL3, hnd3, hq3⟩ := hSetIn_step g2 g3 _ _ _ L2x hs3 hL2 hnd2
    have hlc3 := (hq3 (str2b "content") (by decide)).trans hlc2
    have hld3 := (hq3 (str2b "data_blocks") (by decide)).trans hld2
    obtain ⟨L4, hL4, hnd4, hq4⟩ := hSetIn_step g3 g4 _ _ _ L3 hs4 hL3 hnd3
    have hlc4 := hSetIn_self g3 g4 _ _ _ L3 lc hs4 hL3 hnd3 hlc3
    have hld4 := (hq4 (str2b "data_blocks") (by decide)).trans hld3
    obtain ⟨L5, hL5, hnd5, hdb5, hq5⟩ :=
      hAppendAt_step g4 h2 _ _ L4 L4 ld hs5 hL4 hnd4 hld4
    have hlc5 := (hq5 (str2b "content") (by decide)).trans hlc4
    refine ⟨L5, objSet lc (str2b "heightmap") (.jbool true), hL5, hnd5, hlc5, ?_,
      by simpa [segNames] using hdb5⟩
    exact (objSet_look_ne lc (str2b "heightmap") (str2b "profile") _ (by decide)).trans hprof

theorem stageSatellite_shape (sat : Option (List Nat)) (h h2 : Json)
    (L lc : List (List Nat × Json)) (ld : List Json)
    (hs : stageSatellite sat h = some h2)
    (hL : h = .jobj L) (hnd : (L.map Prod.fst).Nodup)
    (hlc : jget h (str2b "content") = some (.jobj lc))
    (hprof : jlook lc (str2b "profile") = none)
    (hld : jget h (str2b "data_blocks") = some (.jarr ld)) :
    ∃ L2 lc2, h2 = .jobj L2 ∧ (L2.map Prod.fst).Nodup ∧
      jget h2 (str2b "content") = some (.jobj lc2) ∧
      jlook lc2 (str2b "profile") = none ∧
      jget h2 (str2b "data_blocks") = some (.jarr (ld ++
        segNames sat.isSome (str2b "satellite"))) := by
  cases sat with
  | none =>
    simp only [stageSatellite, Option.some.injEq] at hs
    subst hs
    exact ⟨L, lc, hL, hnd, hlc, hprof, by simpa [segNames, matNames] using hld⟩
  | some b =>
    subst hL
    simp only [stageSatellite, Option.bind_eq_bind, Option.bind_eq_some] at hs
    obtain ⟨g2, hs2, hs3⟩ := hs
    obtain ⟨L1, hL1, hnd1, _, hq1⟩ := hSet_step L (str2b "textures") _ hnd
    have hlc1 : jget (hSet (.jobj L) (str2b "textures") _) (str2b "content") =
        some (.jobj lc) := (hq1 (str2b "content") (by decide)).trans hlc
    have hld1 : jget (hSet (.jobj L) (str2b "textures") _) (str2b "data_blocks") =
        some (.jarr ld) := (hq1 (str2b "data_blocks") (by decide)).trans hld
    obtain ⟨L2x, hL2, hnd2, hq2⟩ := hSetIn_step _ g2 _ _ _ L1 hs2 hL1 hnd1
    have hlc2 := hSetIn_self _ g2 _ _ _ L1 lc hs2 hL1 hnd1 hlc1
    have hld2 := (hq2 (str2b "data_blocks") (by decide)).trans hld1
    obtain ⟨L3, hL3, hnd3, hdb3, hq3⟩ :=
      hAppendAt_step g2 h2 _ _ L2x L2x ld hs3 hL2 hnd2 hld2
    have hlc3 := (hq3 (str2b "content") (by decide)).trans hlc2
    refine ⟨L3, objSet lc (str2b "satellite") (.jbool true), hL3, hnd3, hlc3, ?_,
      by simpa [segNames] using hdb3⟩
    exact (objSet_look_ne lc (str2b "satellite") (str2b "profile") _ (by decide)).trans hprof

theorem stageMaterials_shape (ms : Option (List (List Nat × NpArr))) (h h2 : Json)
    (L lc : List (List Nat × Json)) (ld : List Json)
    (hs : stageMaterials ms h = some h2)
    (hL : h = .jobj L) (hnd : (L.map Prod.fst).Nodup)
    (hlc : jget h (str2b "content") = some (.jobj lc))
    (hprof : jlook lc (str2b "profile") = none)
    (hld : jget h (str2b "data_blocks") = some (.jarr ld)) :
    ∃ L2 lc2, h2 = .jobj L2 ∧ (L2.map Prod.fst).Nodup ∧
      jget h2 (str2b "content") = some (.jobj lc2) ∧
      jlook lc2 (str2b "profile") = none ∧
      jget h2 (str2b "data_blocks") = some (.jarr (ld ++ matNames ms)) := by
  cases ms with
  | none =>
    simp only [stageMaterials, Option.some.injEq] at hs
    subst hs
    exact ⟨L, lc, hL, hnd, hlc, hprof, by simpa [segNames, matNames] using hld⟩
  | some ml =>
    simp only [stageMaterials, Option.bind_eq_bind, Option.bind_eq_some] at hs
    obtain ⟨g1, hs1, g2, hs2, hs3⟩ := hs
    obtain ⟨L1, hL1, hnd1, hq1⟩ := hSetIn_step h g1 _ _ _ L hs1 hL hnd
    have hlc1 := (hq1 (str2b "content") (by decide)).trans hlc
    have hld1 := (hq1 (str2b "data_blocks") (by decide)).trans hld
    obtain ⟨L2x, hL2, hnd2, hq2⟩ := hSetIn_step g1 g2 _ _ _ L1 hs2 hL1 hnd1
    have hlc2 := hSetIn_self g1 g2 _ _ _ L1 lc hs2 hL1 hnd1 hlc1
    have hld2 := (hq2 (str2b "data_blocks") (by decide)).trans hld1
    obtain ⟨L3, hL3, hnd3, hdb3, hq3⟩ :=
      hAppendNames_shape (ml.map fun p => str2b "material_" ++ p.1) g2 h2 L2x ld
        hs3 hL2 hnd2 hld2
    have hlc3 := (hq3 (str2b "content") (by decide)).trans hlc2
    refine ⟨L3, objSet lc (str2b "materials") (.jbool true), hL3, hnd3, hlc3, ?_,
      by simpa [matNames, List.map_map, Function.comp] using hdb3⟩
    exact (objSet_look_ne lc (str2b "materials") (str2b "profile") _ (by decide)).trans hprof

theorem stageOsm_shape (osm : Option Json) (h h2 : Json)
    (L lc : List (List Nat × Json)) (ld : List Json)
    (hs : stageOsm osm h = some h2)
    (hL : h = .jobj L) (hnd : (L.map Prod.fst).Nodup)
    (hlc : jget h (str2b "content") = some (.jobj lc))
    (hprof : jlook lc (str2b "profile") = none)
    (hld : jget h (str2b "data_blocks") = some (.jarr ld)) :
    ∃ L2 lc2, h2 = .jobj L2 ∧ (L2.map Prod.fst).Nodup ∧
      jget h2 (str2b "content") = some (.jobj lc2) ∧
      jlook lc2 (str2b "profile") = none ∧
      jget h2 (str2b "data_blocks") = some (.jarr (ld ++
        segNames osm.isSome (str2b "osm_data"))) := by
  cases osm with
  | none =>
    simp only [stageOsm, Option.some.injEq] at hs
    subst hs
    exact ⟨L, lc, hL, hnd, hlc, hprof, by simpa [segNames, matNames] using hld⟩
  | some od =>
    simp only [stageOsm, Option.bind_eq_bind, Option.bind_eq_some] at hs
    obtain ⟨objs, hobjs, n, hn, g1, hs1, hs2⟩ := hs
    obtain ⟨L1, hL1, hnd1, hq1⟩ := hSetIn_step h g1 _ _ _ L hs1 hL hnd
    have hlc1 := hSetIn_self h g1 _ _ _ L lc hs1 hL hnd hlc
    have hld1 := (hq1 (str2b "data_blocks") (by decide)).trans hld
    obtain ⟨L2x, hL2, hnd2, hdb2, hq2⟩ :=
      hAppendAt_step g1 h2 _ _ L1 L1 ld hs2 hL1 hnd1 hld1
    have hlc2 := (hq2 (str2b "content") (by decide)).trans hlc1
    refine ⟨L2x, objSet lc (str2b "osm_objects") (.jnum n), hL2, hnd2, hlc2, ?_,
      by simpa [segNames] using hdb2⟩
    exact (objSet_look_ne lc (str2b "osm_objects") (str2b "profile") _ (by decide)).trans hprof

theorem stageVegetation_shape (veg : Option Json) (h h2 : Json)
    (L lc : List (List Nat × Json)) (ld : List Json)
    (hs : stageVegetation veg h = some h2)
    (hL : h = .jobj L) (hnd : (L.map Prod.fst).Nodup)
    (hlc : jget h (str2b "content") = some (.jobj lc))
    (hprof : jlook lc (str2b "profile") = none)
    (hld : jget h (str2b "data_blocks") = some (.jarr ld)) :
    ∃ L2 lc2, h2 = .jobj L2 ∧ (L2.map Prod.fst).Nodup ∧
      jget h2 (str2b "content") = some (.jobj lc2) ∧
      jlook lc2 (str2b "profile") = none ∧
      jget h2 (str2b "data_blocks") = some (.jarr (ld ++
        segNames veg.isSome (str2b "vegetation"))) := by
  cases veg with
  | none =>
    simp only [stageVegetation, Option.some.injEq] at hs
    subst hs
    exact ⟨L, lc, hL, hnd, hlc, hprof, by simpa [segNames, matNames] using hld⟩
  | some vd =>
    simp only [stageVegetation, Option.bind_eq_bind, Option.bind_eq_some] at hs
    obtain ⟨spawns, hsp, n, hn, g1, hs1, hs2⟩ := hs
    obtain ⟨L1, hL1, hnd1, hq1⟩ := hSetIn_step h g1 _ _ _ L hs1 hL hnd
    have hlc1 := hSetIn_self h g1 _ _ _ L lc hs1 hL hnd hlc
    have hld1 := (hq1 (str2b "data_blocks") (by decide)).trans hld
    obtain ⟨L2x, hL2, hnd2, hdb2, hq2⟩ :=
      hAppendAt_step g1 h2 _ _ L1 L1 ld hs2 hL1 hnd1 hld1
    have hlc2 := (hq2 (str2b "content") (by decide)).trans hlc1
    refine ⟨L2x, objSet lc (str2b "vegetation_spawns") (.jnum n), hL2, hnd2, hlc2, ?_,
      by simpa [segNames] using hdb2⟩
    exact (objSet_look_ne lc (str2b "vegetation_spawns") (str2b "profile") _
      (by decide)).trans hprof

theorem stageTactical_shape (tac : Option Json) (h h2 : Json)
    (L lc : List (List Nat × Json)) (ld : List Json)
    (hs : stageTactical tac h = some h2)
    (hL : h = .jobj L) (hnd : (L.map Prod.fst).Nodup)
    (hlc : jget h (str2b "content") = some (.jobj lc))
    (hprof : jlook lc (str2b "profile") = none)
    (hld : jget h (str2b "data_blocks") = some (.jarr ld)) :
    ∃ L2 lc2, h2 = .jobj L2 ∧ (L2.map Prod.fst).Nodup ∧
      jget h2 (str2b "content") = some (.jobj lc2) ∧
      jlook lc2 (str2b "profile") = none ∧
      jget h2 (str2b "data_blocks") = some (.jarr (ld ++
        segNames tac.isSome (str2b "tactical"))) := by
  cases tac with
  | none =>
    simp only [stageTactical, Option.some.injEq] at hs
    subst hs
    exact ⟨L, lc, hL, hnd, hlc, hprof, by simpa [segNames, matNames] using hld⟩
  | some td =>
    simp only [stageTactical, Option.bind_eq_bind, Option.bind_eq_some] at hs
    obtain ⟨g1, hs1, hs2⟩ := hs
    obtain ⟨L1, hL1, hnd1, hq1⟩ := hSetIn_step h g1 _ _ _ L hs1 hL hnd
    have hlc1 := hSetIn_self h g1 _ _ _ L lc hs1 hL hnd hlc
    have hld1 := (hq1 (str2b "data_blocks") (by decide)).trans hld
    obtain ⟨L2x, hL2, hnd2, hdb2, hq2⟩ :=
      hAppendAt_step g1 h2 _ _ L1 L1 ld hs2 hL1 hnd1 hld1
    have hlc2 := (hq2 (str2b "content") (by decide)).trans hlc1
    refine ⟨L2x, objSet lc (str2b "tactical_analysis") (.jbool true), hL2, hnd2, hlc2, ?_,
      by simpa [segNames] using hdb2⟩
    exact (objSet_look_ne lc (str2b "tactical_analysis") (str2b "profile") _
      (by decide)).trans hprof

theorem pkgNames_eq (args : PkgArgs) :
    pkgNames args =
      segNames args.heightmap.isSome (str2b "heightmap") ++
      (segNames args.satellite.isSome (str2b "satellite") ++
      (matNames args.materials ++
      (segNames args.osm_data.isSome (str2b "osm_data") ++
      (segNames args.vegetation.isSome (str2b "vegetation") ++
      segNames args.tactical.isSome (str2b "tactical"))))) := by
  obtain ⟨pi, cr, hm, sa, ms, od, vg, tc, pf⟩ := args
  simp only [pkgNames, pkgBlocks]
  cases hm <;> cases sa <;> cases ms <;> cases od <;> cases vg <;> cases tc <;>
    simp [segNames, matNames, List.map_map, Function.comp]

theorem createHeader_shape (args : PkgArgs) (hd : Json)
    (h : createHeader args = some hd) :
    ∃ lc, jget hd (str2b "content") = some (.jobj lc) ∧
      jlook lc (str2b "profile") = none ∧
      jget hd (str2b "data_blocks") = some (.jarr (pkgNames args)) := by
  simp only [createHeader, Option.bind_eq_bind, Option.bind_eq_some] at h
  obtain ⟨g1, hs1, g2, hs2, g3, hs3, g4, hs4, g5, hs5, hs6⟩ := h
  obtain ⟨L1, lc1, hL1, hnd1, hlc1, hprof1, hld1⟩ :=
    stageHeightmap_shape args.heightmap (baseHeader args) g1 _ [] [] hs1 rfl
      (by show ([str2b "format", str2b "version", str2b "created",
        str2b "plugin_version", str2b "project", str2b "terrain", str2b "content",
        str2b "ue5", str2b "data_blocks"] : List (List Nat)).Nodup
          decide) rfl rfl rfl
  obtain ⟨L2, lc2, hL2, hnd2, hlc2, hprof2, hld2⟩ :=
    stageSatellite_shape args.satellite g1 g2 L1 lc1 _ hs2 hL1 hnd1 hlc1 hprof1 hld1
  obtain ⟨L3, lc3, hL3, hnd3, hlc3, hprof3, hld3⟩ :=
    stageMaterials_shape args.materials g2 g3 L2 lc2 _ hs3 hL2 hnd2 hlc2 hprof2 hld2
  obtain ⟨L4, lc4, hL4, hnd4, hlc4, hprof4, hld4⟩ :=
    stageOsm_shape args.osm_data g3 g4 L3 lc3 _ hs4 hL3 hnd3 hlc3 hprof3 hld3
  obtain ⟨L5, lc5, hL5, hnd5, hlc5, hprof5, hld5⟩ :=
    stageVegetation_shape args.vegetation g4 g5 L4 lc4 _ hs5 hL4 hnd4 hlc4 hprof4 hld4
  obtain ⟨L6, lc6, hL6, hnd6, hlc6, hprof6, hld6⟩ :=
    stageTactical_shape args.tactical g5 hd L5 lc5 _ hs6 hL5 hnd5 hlc5 hprof5 hld5
  refine ⟨lc6, hlc6, hprof6, ?_⟩
  rw [pkgNames_eq]
  simpa [List.append_assoc] using hld6

theorem pkgBlocks_profile_split (args : PkgArgs) (pc : Json)
    (hpc : args.profile_config = some pc) :
    pkgBlocks args =
      pkgBlocks { args with profile_config := none } ++
        [(str2b "profile", PyValue.pyjson pc)] := by
  obtain ⟨pi, cr, hm, sa, ms, od, vg, tc, pf⟩ := args
  simp only at hpc
  subst hpc
  simp [pkgBlocks, List.append_assoc]

theorem bLook_bSet_self (l : List (BKey × PyValue)) (k : BKey) (v : PyValue) :
    bLook (bSet l k v) k = some v := by
  induction l with
  | nil => simp [bSet, bLook]
  | cons p t ih =>
    obtain ⟨k1, v1⟩ := p
    by_cases hk : k1 = k
    · simp [bSet, hk, bLook]
    · simp [bSet, hk, bLook, ih]

theorem pkgMap_last (bs : List (List Nat × PyValue)) (n : List Nat) (v : PyValue) :
    bLook (pkgMap (bs ++ [(n, v)])) (.kstr n) = some v := by
  simp only [pkgMap, List.foldl_append, List.foldl_cons, List.foldl_nil]
  exact bLook_bSet_self _ _ _

theorem bSet_keys : ∀ (l : List (BKey × PyValue)) (k : BKey) (v : PyValue)
    (q : BKey), q ∈ (bSet l k v).map Prod.fst → q = k ∨ q ∈ l.map Prod.fst := by
  intro l
  induction l with
  | nil =>
    intro k v q h
    simp [bSet] at h
    exact Or.inl h
  | cons p t ih =>
    obtain ⟨k1, v1⟩ := p
    intro k v q h
    by_cases hk : k1 = k
    · rw [show bSet ((k1, v1) :: t) k v = (k, v) :: t from by simp [bSet, hk]] at h
      simp only [List.map_cons, List.mem_cons] at h ⊢
      subst hk
      tauto
    · rw [show bSet ((k1, v1) :: t) k v = (k1, v1) :: bSet t k v from
        by simp [bSet, hk]] at h
      simp only [List.map_cons, List.mem_cons] at h ⊢
      rcases h with h | h
      · tauto
      · rcases ih k v q h with h2 | h2 <;> tauto

theorem pkgMap_keys_aux : ∀ (bs : List (List Nat × PyValue))
    (acc : List (BKey × PyValue)) (q : BKey),
    q ∈ ((bs.foldl (fun a p => bSet a (.kstr p.1) p.2) acc).map Prod.fst) →
    q ∈ acc.map Prod.fst ∨ ∃ n, n ∈ bs.map Prod.fst ∧ q = .kstr n := by
  intro bs
  induction bs with
  | nil =>
    intro acc q h
    exact Or.inl h
  | cons p t ih =>
    obtain ⟨n, v⟩ := p
    intro acc q h
    simp only [List.foldl_cons] at h
    rcases ih (bSet acc (.kstr n) v) q h with h2 | h2
    · rcases bSet_keys acc (.kstr n) v q h2 with h3 | h3
      · exact Or.inr ⟨n, by simp, h3⟩
      · exact Or.inl h3
    · obtain ⟨m, hm, hq⟩ := h2
      exact Or.inr ⟨m, by simp [hm], hq⟩

theorem read_package_take8 (b1 b2 : List Nat) (h : b1.take 8 = b2.take 8) :
    (∀ m, read_package b1 = .error (.notRTerrain m) →
      read_package b2 = .error (.notRTerrain m)) ∧
    (∀ vv, read_package b1 = .error (.unsupportedVersion vv) →
      read_package b2 = .error (.unsupportedVersion vv)) := by
  have htake4 : b1.take 4 = b2.take 4 := by
    have h1 : (b1.take 8).take 4 = (b2.take 8).take 4 := by rw [h]
    simpa [List.take_take] using h1
  have hread : readAt b1 4 4 = readAt b2 4 4 := by
    have h1 : (b1.take 8).drop 4 = (b2.take 8).drop 4 := by rw [h]
    simpa [readAt, List.drop_take] using h1
  constructor
  · intro m hm
    by_cases hc : b1.take 4 ≠ MAGICB
    · rw [read_package, if_pos hc] at hm
      have hm2 := RErr.notRTerrain.inj (Except.error.inj hm)
      rw [read_package, if_pos (htake4 ▸ hc), ← htake4, hm2]
    · rw [read_package, if_neg hc] at hm
      dsimp only at hm
      exfalso
      split at hm
      · exact RErr.noConfusion (Except.error.inj hm)
      · split at hm
        · exact RErr.noConfusion (Except.error.inj hm)
        · split at hm
          · exact RErr.noConfusion (Except.error.inj hm)
          · split at hm
            · exact RErr.noConfusion (Except.error.inj hm)
            · exact Except.noConfusion hm
  · intro vv hm
    by_cases hc : b1.take 4 ≠ MAGICB
    · rw [read_package, if_pos hc] at hm
      exact absurd (Except.error.inj hm) (by intro hx; exact RErr.noConfusion hx)
    · rw [read_package, if_neg hc] at hm
      by_cases hlen : (readAt b1 4 4).length < 4
      · rw [if_pos hlen] at hm
        exact absurd (Except.error.inj hm) (by intro hx; exact RErr.noConfusion hx)
      · rw [if_neg hlen] at hm
        by_cases hv : leU32 (readAt b1 4 4) ≠ VERSION
        · rw [if_pos hv] at hm
          have hv2 := RErr.unsupportedVersion.inj (Except.error.inj hm)
          rw [read_package, if_neg (by rw [← htake4]; exact hc),
            if_neg (by rw [← hread]; exact hlen), if_pos (by rw [← hread]; exact hv),
            ← hread, hv2]
        · rw [if_neg hv] at hm
          dsimp only at hm
          exfalso
          split at hm
          · exact RErr.noConfusion (Except.error.inj hm)
          · split at hm
            · exact RErr.noConfusion (Except.error.inj hm)
            · exact Except.noConfusion hm

/-- Claim C1: for every payload of each of the three kinds — numeric grid with
dtype and shape, opaque byte string, structured record — the encoded block
buffer decompresses and decodes, with the recorded kind, dtype and shape, back
to a value equal to the original payload bit for bit. -/
theorem c1_payload_roundtrip (name : List Nat) (v : PyValue) (e : BlockEnc)
    (henc : encodeBlock name v = some e) (hwf : pvWF v = true) :
    ∃ db, zdecompress e.comp = some db ∧
      decodePayload (.jstr (typeTag v)) (blockHeaderJson name v e.comp e.ulen) db =
        some v := by
  obtain ⟨db, hdb, he, hbh, hlt⟩ := encodeBlock_inv name v e henc
  subst he
  exact ⟨db, zdecompress_zcompress db, decodePayload_enc v db hdb hwf name _ _⟩

/-- Claim C1 check at a concrete structured-record payload. -/
theorem c1_roundtrip_check :
    ∃ db, zdecompress w1e.comp = some db ∧
      decodePayload (.jstr (typeTag w1v))
        (blockHeaderJson (str2b "osm_data") w1v w1e.comp w1e.ulen) db = some w1v :=
  c1_payload_roundtrip (str2b "osm_data") w1v w1e (by rfl) (by rfl)

/-- Claim C2: the block-scan loop runs only while the position is strictly
below file length minus the 32 digest bytes, and a 4-byte little-endian
candidate length above the 100000 threshold stops the scan at once without
parsing the index, keeping exactly the blocks decoded so far. -/
theorem c2_scan_gate (fu : Nat) (bytes : List Nat) (pos : Nat)
    (acc : List (BKey × PyValue)) :
    (¬ pos < bytes.length - 32 → scan (fu + 1) bytes pos acc = acc) ∧
    (∀ szb, readAt bytes pos 4 = szb → szb.length = 4 → 100000 < leU32 szb →
      scan (fu + 1) bytes pos acc = acc) := by
  constructor
  · intro h
    simp [scan, h]
  · intro szb hszb hlen hth
    have hpb : parseBlockAt bytes pos = none := by
      simp only [parseBlockAt, hszb]
      rw [if_neg (by omega), if_pos hth]
    by_cases hc : pos < bytes.length - 32
    · simp [scan, hc, hpb]
    · simp [scan, hc]

/-- Claim C2 check: a short file stops at the bound, a huge candidate length
stops at the threshold. -/
theorem c2_gate_check :
    scan 1 [1, 2, 3] 0 [] = [] ∧ scan 1 (List.replicate 40 200) 0 [] = [] :=
  ⟨(c2_scan_gate 0 [1, 2, 3] 0 []).1 (by decide),
   (c2_scan_gate 0 (List.replicate 40 200) 0 []).2
     (readAt (List.replicate 40 200) 0 4) rfl (by decide) (by decide)⟩

/-- Claim C4: any failure inside a candidate block parse ends the scan
silently: the loop returns exactly its accumulator, so the failed block and
every block after it stay absent from the package. -/
theorem c4_silent_stop (fu : Nat) (bytes : List Nat) (pos : Nat)
    (acc : List (BKey × PyValue)) (h : parseBlockAt bytes pos = none) :
    scan fu bytes pos acc = acc ∧
    ∀ k, bLook acc k = none → bLook (scan fu bytes pos acc) k = none := by
  have h1 : scan fu bytes pos acc = acc := by
    cases fu with
    | zero => rfl
    | succ f =>
      by_cases hc : pos < bytes.length - 32
      · simp [scan, hc, h]
      · simp [scan, hc]
  exact ⟨h1, fun k hk => by rw [h1]; exact hk⟩

/-- Claim C4 check on bytes whose first candidate fails to parse. -/
theorem c4_stop_check : scan 7 (List.replicate 50 9) 3 [] = [] :=
  (c4_silent_stop 7 (List.replicate 50 9) 3 [] (by rfl)).1

/-- Claim C5: a wrong magic tag or a wrong version makes open fail entirely
with the matching fatal error, the version gate firing before the header is
parsed, and neither failure depends on any byte past the first eight. -/
theorem c5_gates (bytes : List Nat) :
    (bytes.take 4 ≠ MAGICB →
      read_package bytes = .error (.notRTerrain (bytes.take 4))) ∧
    (bytes.take 4 = MAGICB → (readAt bytes 4 4).length = 4 →
      leU32 (readAt bytes 4 4) ≠ VERSION →
      read_package bytes = .error (.unsupportedVersion (leU32 (readAt bytes 4 4)))) ∧
    (∀ b2 : List Nat, bytes.take 8 = b2.take 8 →
      (∀ m, read_package bytes = .error (.notRTerrain m) →
        read_package b2 = .error (.notRTerrain m)) ∧
      (∀ vv, read_package bytes = .error (.unsupportedVersion vv) →
        read_package b2 = .error (.unsupportedVersion vv))) := by
  refine ⟨?_, ?_, ?_⟩
  · intro h
    rw [read_package, if_pos h]
  · intro hmag hlen hv
    rw [read_package, if_neg (by simp [hmag])]
    dsimp only
    rw [if_neg (by omega), if_pos hv]
  · intro b2 h8
    exact read_package_take8 bytes b2 h8

/-- Claim C5 check: a garbage magic and a bumped version each fail. -/
theorem c5_gates_check :
    read_package [9, 9, 9, 9] = .error (.notRTerrain [9, 9, 9, 9]) ∧
    read_package (MAGICB ++ [2, 0, 0, 0]) = .error (.unsupportedVersion 2) :=
  ⟨(c5_gates [9, 9, 9, 9]).1 (by decide),
   (c5_gates (MAGICB ++ [2, 0, 0, 0])).2.1 (by decide) (by decide) (by decide)⟩

theorem pkgBody_len (args : PkgArgs) (body : List Nat)
    (h : pkgBody args = some body) : 4 ≤ body.length := by
  simp only [pkgBody, Option.bind_eq_bind, Option.bind_eq_some] at h
  obtain ⟨hd0, hhd0, hb0, hdump, hlen0, hpl, vb0, hpv, ⟨blocksB, idx⟩, hwb, ib0,
    hdumpib, il0, hpil, hpure⟩ := h
  have he : MAGICB ++ vb0 ++ hlen0 ++ hb0 ++ blocksB ++ il0 ++ ib0 = body :=
    Option.some.inj hpure
  have hM : MAGICB.length = 4 := rfl
  rw [← he]
  simp only [List.length_append, hM]
  omega

/-- Claim C6: the claimed trailing digest is never written. create_package
opens the output write-only, the read loop of _write_checksum raises on its
first f.read before any digest is computed, and so the call returns normally
on no input at all: no produced file exists, let alone one ending in the
digest of its preceding bytes. The file left on disk ends with the index. -/
theorem c6_checksum_never_runs (args : PkgArgs) : create_package args = none := by
  cases hb : pkgBody args with
  | none => simp [create_package, hb]
  | some body =>
    have h4 := pkgBody_len args body hb
    simp only [create_package, hb, Option.bind_eq_bind, Option.some_bind]
    rw [write_checksum, if_neg (by omega)]
    rfl

/-- Claim C6 check: the empty package never completes either. -/
theorem c6_checksum_check : create_package w6 = none := c6_checksum_never_runs w6

/-- Claim C3 counterexample: in c3bytes the first candidate block carries a
stored digest that mismatches the recomputed one, a fully valid block follows
it, and yet read_package returns a package with no blocks at all — the later
block is neither scanned nor stored. -/
theorem c3_later_block_dropped :
    read_package c3bytes = .ok ⟨.jobj [], []⟩ ∧
    md5hex (zcompress [7]) ≠ str2b "00" ∧
    parseBlockAt c3bytes (c3pre ++ c3blockA).length =
      some (.kstr (str2b "b"), .pybytes [8], (c3pre ++ c3blockA ++ c3blockB).length) := by
  refine ⟨rfl, by decide, rfl⟩

/-- Claim C3 as amended: a content-digest mismatch at a candidate block is not
local to that block — the scan stops there, returning its accumulator, so the
mismatching block and every block after it are dropped. -/
theorem c3_digest_mismatch_stops (fu : Nat) (bytes : List Nat) (pos : Nat)
    (acc : List (BKey × PyValue)) (szb bhb : List Nat) (bh ck : Json)
    (h1 : readAt bytes pos 4 = szb) (h2 : szb.length = 4)
    (h3 : leU32 szb ≤ 100000)
    (h4 : readAt bytes (pos + 4) (leU32 szb) = bhb)
    (h5 : loads bhb = some bh)
    (h6 : ((jget bh (str2b "compressed_size")).bind pyReadCount).isSome = true)
    (h7 : jget bh (str2b "checksum") = some ck)
    (h8 : ckMatches ck (md5hex (compAt bytes pos bhb.length bh)) = false) :
    scan fu bytes pos acc = acc := by
  obtain ⟨cs, hcs⟩ := Option.isSome_iff_exists.mp h6
  have hcomp : compAt bytes pos bhb.length bh =
      readAt bytes (pos + 4 + bhb.length)
        (if cs < 0 then bytes.length - (pos + 4 + bhb.length)
         else min cs.toNat (bytes.length - (pos + 4 + bhb.length))) := by
    simp only [compAt, hcs]
  rw [hcomp] at h8
  have hpb : parseBlockAt bytes pos = none := by
    simp only [parseBlockAt, h1]
    rw [if_neg (by omega), if_neg (by omega), h4]
    simp only [h5, hcs, h7, h8]
    simp
  cases fu with
  | zero => rfl
  | succ f =>
    by_cases hc : pos < bytes.length - 32
    · simp [scan, hc, hpb]
    · simp [scan, hc]

/-- Claim C3 amended check at the corrupted block of c3bytes. -/
theorem c3_mismatch_check : scan 5 c3bytes 14 [] = [] :=
  c3_digest_mismatch_stops 5 c3bytes 14 [] (readAt c3bytes 14 4)
    (readAt c3bytes 18 (leU32 (readAt c3bytes 14 4))) c3badHdr
    (.jstr (str2b "00")) rfl (by decide) (by decide) rfl (by rfl) (by decide)
    (by rfl) (by decide)

/-- Claim C7 counterexample: c7fileA and c7fileB agree on every byte from the
start through the end of the block region and differ only in the index record
and trailing digest bytes, yet the crafted index region of c7fileB is scanned
as one more block: the two opens return equal headers but different decoded
block sets. -/
theorem c7_index_scanned :
    c7fileA.take c7pre.length = c7fileB.take c7pre.length ∧
    read_package c7fileA = .ok c7A ∧
    read_package c7fileB = .ok c7B ∧
    c7A.header = c7B.header ∧
    list_data_blocks c7A = [.kstr (str2b "satellite")] ∧
    list_data_blocks c7B = [.kstr (str2b "satellite"), .kstr (str2b "x")] := by
  exact ⟨by decide, rfl, rfl, rfl, by decide, by decide⟩

/-- Claim C7 as amended: the reader never verifies the trailing whole-file
digest field: over the byte stream the writer emits through the index (the
digest append itself is dead code, the C6 finding), any 32 trailing bytes
standing where the digest belongs give the same open result as any other 32.
The index bytes, by contrast, are scanned as a block candidate, so index
changes can change the block set — see the counterexample. -/
theorem c7_digest_not_verified (args : PkgArgs) (body t1 t2 : List Nat) (hd : Json)
    (hb : pkgBody args = some body) (hhd : createHeader args = some hd)
    (hwf : blocksWF (pkgBlocks args) = true)
    (ht1 : t1.length = 32) (ht2 : t2.length = 32) :
    read_package (body ++ t1) = read_package (body ++ t2) := by
  rw [read_body args body t1 hd hb hhd hwf ht1,
    read_body args body t2 hd hb hhd hwf ht2]

/-- Claim C7 amended check: two different 32-byte tails after the emitted
body of a one-block package read identically. -/
theorem c7_digest_check :
    read_package ((pkgBody a7).getD [] ++ List.replicate 32 7) =
    read_package ((pkgBody a7).getD [] ++ List.replicate 32 9) :=
  c7_digest_not_verified a7 ((pkgBody a7).getD []) (List.replicate 32 7)
    (List.replicate 32 9) c7hd (by rfl) (by rfl) (by decide) (by decide) (by decide)

theorem pkgBlocks_noprof_head (args : PkgArgs) (p : List Nat × PyValue)
    (hp : p ∈ pkgBlocks { args with profile_config := none }) :
    p.1.head? ≠ some 112 := by
  simp only [pkgBlocks, List.mem_append] at hp
  rcases hp with ((((((h | h) | h) | h) | h) | h) | h)
  · match hs : args.heightmap with
    | none => rw [hs] at h; simp at h
    | some a =>
      rw [hs] at h
      simp only [List.mem_singleton] at h
      subst h
      intro hc
      exact absurd (show (str2b "heightmap").head? = some 112 from hc) (by decide)
  · match hs : args.satellite with
    | none => rw [hs] at h; simp at h
    | some b =>
      rw [hs] at h
      simp only [List.mem_singleton] at h
      subst h
      intro hc
      exact absurd (show (str2b "satellite").head? = some 112 from hc) (by decide)
  · match hs : args.materials with
    | none => rw [hs] at h; simp at h
    | some ms =>
      rw [hs] at h
      simp only [List.mem_map] at h
      obtain ⟨q, _, hq⟩ := h
      rw [← hq]
      intro hc
      have hc2 : some 109 = some 112 := hc
      simp at hc2
  · match hs : args.osm_data with
    | none => rw [hs] at h; simp at h
    | some j =>
      rw [hs] at h
      simp only [List.mem_singleton] at h
      subst h
      intro hc
      exact absurd (show (str2b "osm_data").head? = some 112 from hc) (by decide)
  · match hs : args.vegetation with
    | none => rw [hs] at h; simp at h
    | some j =>
      rw [hs] at h
      simp only [List.mem_singleton] at h
      subst h
      intro hc
      exact absurd (show (str2b "vegetation").head? = some 112 from hc) (by decide)
  · match hs : args.tactical with
    | none => rw [hs] at h; simp at h
    | some j =>
      rw [hs] at h
      simp only [List.mem_singleton] at h
      subst h
      intro hc
      exact absurd (show (str2b "tactical").head? = some 112 from hc) (by decide)
  · simp at h
